import Mathlib

/-!
# Width calculation and redisplay of `rlncurses.c`

A shallow embedding of `src/rlncurses.c`, and of the function `strnwidth` of
`src/ncurses.c` under the names `Ncurses.strnwidth` and `Ncurses.strwidth`.

* `size_t` values are natural numbers reduced modulo `SIZE_MOD`.
* A C string is the list of its bytes before the terminator; the terminator is
  the byte read at index `length`, and a read beyond it is a fault.
* The C library functions the code calls (`mbrtowc`, `wcwidth`, `iswcntrl`,
  `MB_CUR_MAX`) depend on the locale chosen at run time; they are the fields of
  a `Locale`, and `utf8` is a concrete one.
-/

namespace RlNcurses

/-! ## Machine integers -/

/-- Number of values of the type `size_t`. -/
def SIZE_MOD : Nat := 2 ^ 64

/-- Largest value of the type `size_t`. -/
def SIZE_MAX : Nat := SIZE_MOD - 1

/-- Addition of two `size_t` values. -/
def size_add (a b : Nat) : Nat := (a + b) % SIZE_MOD

/-- Subtraction of two `size_t` values. -/
def size_sub (a b : Nat) : Nat := (a % SIZE_MOD + (SIZE_MOD - b % SIZE_MOD)) % SIZE_MOD

/-- The expression `x & ~7` on `size_t`: the `int` constant `~7` is `-8`, which
converts to `SIZE_MOD - 8`. -/
def size_and_not7 (x : Nat) : Nat := (x % SIZE_MOD) &&& (SIZE_MOD - 8)

/-! ## Strings in memory -/

/-- Reading the byte at index `j` of the string object `s`: the bytes of `s`,
then the terminator; no byte beyond it belongs to the object. -/
def readByte (s : List Nat) (j : Nat) : Option Nat :=
  match s[j]? with
  | some b => some b
  | none => if j = s.length then some 0 else none

/-- The library function `strnlen(s + i, maxlen)`: the number of bytes before the
first zero byte, but at most `maxlen`. -/
def strnlen (s : List Nat) (i maxlen : Nat) : Option Nat :=
  if i ≤ s.length then some (min ((s.drop i).takeWhile (fun b => b != 0)).length maxlen)
  else none

/-- A well-formed C string: no byte before the terminator is zero. -/
def IsCString (s : List Nat) : Prop := ∀ b ∈ s, b ≠ 0

instance (s : List Nat) : Decidable (IsCString s) := by
  unfold IsCString; infer_instance

/-! ## The locale: multibyte decoder and character classes -/

/-- What the multibyte decoder does with one more byte. -/
inductive MbStep (σ : Type) where
  /-- The byte is accepted and the character is not complete yet. -/
  | more (st : σ)
  /-- The byte completes the wide character `wc`. -/
  | char (wc : Nat) (st : σ)
  /-- The byte cannot start or continue a character. -/
  | bad

/-- The locale-dependent library functions used by `strnwidth`. -/
structure Locale where
  /-- Contents of an `mbstate_t`. -/
  State : Type
  /-- The initial shift state (an all-zero `mbstate_t`). -/
  init : State
  /-- The restartable decoder, one byte at a time. -/
  step : State → Nat → MbStep State
  /-- The constant `MB_CUR_MAX`. -/
  MB_CUR_MAX : Nat
  /-- The function `wcwidth`. -/
  wcwidth : Nat → Int
  /-- The function `iswcntrl`, as a truth value. -/
  iswcntrl : Nat → Bool

/-- Result of a call of `mbrtowc`. -/
inductive MbResult (σ : Type) where
  /-- Return value 0: the null wide character was decoded. -/
  | nul (st : σ)
  /-- Return value `len`: the character `wc` was completed by `len` bytes. -/
  | char (wc : Nat) (len : Nat) (st : σ)
  /-- Return value `(size_t)-1`: invalid sequence. -/
  | invalid
  /-- Return value `(size_t)-2`: the bytes examined do not complete a character. -/
  | incomplete (st : σ)
  /-- A byte outside the string object was read. -/
  | fault

/-- The call `mbrtowc(&wc, s + i, limit, &st)` after `used` bytes have been
examined: bytes are fed to the decoder until a character is complete, a byte is
rejected, or `limit` bytes have been examined. -/
def mbrtowc (L : Locale) (s : List Nat) (i : Nat) :
    Nat → Nat → L.State → MbResult L.State
  | 0, _, st => .incomplete st
  | limit + 1, used, st =>
    match readByte s (i + used) with
    | none => .fault
    | some b =>
      match L.step st b with
      | .bad => .invalid
      | .more st' => mbrtowc L s i limit (used + 1) st'
      | .char wc st' => if wc = 0 then .nul st' else .char wc (used + 1) st'

/-! ## `strnwidth` and `strwidth` -/

/-- Why a run of the model did not produce a value. -/
inductive Fault where
  /-- A byte outside the string object was read. -/
  | outOfBounds
  /-- The iteration budget of the model was used up. -/
  | outOfFuel
  deriving DecidableEq, Repr

/-- Lines 102-107 of `strnwidth`: the new running width after the character `wc`. -/
def widthStep (L : Locale) (wc width offset : Nat) : Nat :=
  if wc = 9 then
    size_sub (size_and_not7 (size_add (size_add width offset) 8)) offset
  else
    size_add width (if L.iswcntrl wc then 2 else (max 0 (L.wcwidth wc)).toNat)

/-- Where control goes after one pass through the loop of `strnwidth`. -/
inductive Ctl (σ : Type) where
  /-- Back to the loop head with new `i`, shift state and `width`. -/
  | next (i : Nat) (st : σ) (width : Nat)
  /-- The label `done` is reached with this `width`. -/
  | done (width : Nat)
  /-- A byte outside the string object was read. -/
  | fault

/-- One pass through the loop of `strnwidth` (lines 86-108), from the test
`i < n` to the increment `i += wc_len`. -/
def loopBody (L : Locale) (s : List Nat) (n offset : Nat)
    (i : Nat) (st : L.State) (width : Nat) : Ctl L.State :=
  if i < n then
    match mbrtowc L s i L.MB_CUR_MAX 0 st with
    | .fault => .fault
    | .nul _ => .done width
    | .invalid | .incomplete _ =>
      match strnlen s i (size_sub n i) with
      | none => .fault
      | some k => .done (size_add width k)
    | .char wc len st' => .next (size_add i len) st' (widthStep L wc width offset)
  else .done width

/-- The loop of `strnwidth`, run for at most `fuel` passes. -/
def strnwidthLoop (L : Locale) (s : List Nat) (n offset : Nat) :
    Nat → Nat → L.State → Nat → Except Fault Nat
  | 0, _, _, _ => .error .outOfFuel
  | fuel + 1, i, st, width =>
    match loopBody L s n offset i st width with
    | .fault => .error .outOfBounds
    | .done w => .ok w
    | .next i' st' w => strnwidthLoop L s n offset fuel i' st' w

/-- The function `strnwidth(s, n, offset)`. Every pass that continues consumes a
byte of the string object, so `s.length + 2` passes are a sufficient budget. -/
def strnwidth (L : Locale) (s : List Nat) (n offset : Nat) : Except Fault Nat :=
  strnwidthLoop L s n offset (s.length + 2) 0 L.init 0

/-- The function `strwidth(s, offset)`. -/
def strwidth (L : Locale) (s : List Nat) (offset : Nat) : Except Fault Nat :=
  strnwidth L s SIZE_MAX offset

/-! ## `strnwidth` and `strwidth` of `ncurses.c` -/

/-- One pass through the loop of `strnwidth` in `src/ncurses.c` (lines 69-91).
It differs from the loop of `src/rlncurses.c` in the call made after a decoding
failure, which is `strnlen(s, n - i)`: the bytes are counted from the start of
the string. -/
def Ncurses.loopBody (L : Locale) (s : List Nat) (n offset : Nat)
    (i : Nat) (st : L.State) (width : Nat) : Ctl L.State :=
  if i < n then
    match mbrtowc L s i L.MB_CUR_MAX 0 st with
    | .fault => .fault
    | .nul _ => .done width
    | .invalid | .incomplete _ =>
      match strnlen s 0 (size_sub n i) with
      | none => .fault
      | some k => .done (size_add width k)
    | .char wc len st' => .next (size_add i len) st' (widthStep L wc width offset)
  else .done width

/-- The loop of `strnwidth` in `src/ncurses.c`, run for at most `fuel` passes. -/
def Ncurses.strnwidthLoop (L : Locale) (s : List Nat) (n offset : Nat) :
    Nat → Nat → L.State → Nat → Except Fault Nat
  | 0, _, _, _ => .error .outOfFuel
  | fuel + 1, i, st, width =>
    match Ncurses.loopBody L s n offset i st width with
    | .fault => .error .outOfBounds
    | .done w => .ok w
    | .next i' st' w => Ncurses.strnwidthLoop L s n offset fuel i' st' w

/-- The function `strnwidth(s, n, offset)` of `src/ncurses.c` (lines 60-95). -/
def Ncurses.strnwidth (L : Locale) (s : List Nat) (n offset : Nat) : Except Fault Nat :=
  Ncurses.strnwidthLoop L s n offset (s.length + 2) 0 L.init 0

/-- The function `strwidth(s, offset)` of `src/ncurses.c` (lines 98-100). -/
def Ncurses.strwidth (L : Locale) (s : List Nat) (offset : Nat) : Except Fault Nat :=
  Ncurses.strnwidth L s SIZE_MAX offset

/-! ## A concrete locale: UTF-8 -/

/-- Shift state of the UTF-8 decoder: continuation bytes still expected, the
bits collected so far, and the least code point the sequence may encode. -/
structure Utf8State where
  need : Nat
  acc : Nat
  least : Nat
  deriving DecidableEq, Repr

/-- The UTF-8 decoder, one byte at a time. -/
def utf8Step (st : Utf8State) (b : Nat) : MbStep Utf8State :=
  match st.need with
  | 0 =>
    if b < 0x80 then .char b ⟨0, 0, 0⟩
    else if 0xC2 ≤ b ∧ b ≤ 0xDF then .more ⟨1, b - 0xC0, 0x80⟩
    else if 0xE0 ≤ b ∧ b ≤ 0xEF then .more ⟨2, b - 0xE0, 0x800⟩
    else if 0xF0 ≤ b ∧ b ≤ 0xF4 then .more ⟨3, b - 0xF0, 0x10000⟩
    else .bad
  | k + 1 =>
    if 0x80 ≤ b ∧ b ≤ 0xBF then
      let acc := st.acc * 64 + (b - 0x80)
      match k with
      | 0 =>
        if st.least ≤ acc ∧ acc ≤ 0x10FFFF ∧ ¬ (0xD800 ≤ acc ∧ acc ≤ 0xDFFF) then
          .char acc ⟨0, 0, 0⟩
        else .bad
      | j + 1 => .more ⟨j + 1, acc, st.least⟩
    else .bad

/-- Control characters of the sample tables: C0, DEL, C1 and the two Unicode
line and paragraph separators. -/
def utf8Iswcntrl (wc : Nat) : Bool :=
  decide (wc < 0x20) || decide (0x7F ≤ wc ∧ wc < 0xA0) || decide (wc = 0x2028) ||
    decide (wc = 0x2029)

/-- Column widths of the sample tables: `-1` for control characters, `0` for the
null character and the combining diacritical marks, `2` for the main East Asian
wide blocks, `1` otherwise. -/
def utf8Wcwidth (wc : Nat) : Int :=
  if wc = 0 then 0
  else if utf8Iswcntrl wc then -1
  else if 0x300 ≤ wc ∧ wc ≤ 0x36F then 0
  else if (0x1100 ≤ wc ∧ wc ≤ 0x115F) ∨ (0x2E80 ≤ wc ∧ wc ≤ 0xA4CF) ∨
      (0xAC00 ≤ wc ∧ wc ≤ 0xD7A3) ∨ (0xF900 ≤ wc ∧ wc ≤ 0xFAFF) ∨
      (0xFE30 ≤ wc ∧ wc ≤ 0xFE6F) ∨ (0xFF00 ≤ wc ∧ wc ≤ 0xFF60) ∨
      (0xFFE0 ≤ wc ∧ wc ≤ 0xFFE6) ∨ (0x20000 ≤ wc ∧ wc ≤ 0x3FFFD) then 2
  else 1

/-- A UTF-8 locale: the UTF-8 decoder with `MB_CUR_MAX = 6` and sample
character tables. -/
def utf8 : Locale where
  State := Utf8State
  init := ⟨0, 0, 0⟩
  step := utf8Step
  MB_CUR_MAX := 6
  wcwidth := utf8Wcwidth
  iswcntrl := utf8Iswcntrl

/-- The requirement of the C standard on multibyte encodings: a zero byte is the
null character in every shift state and is part of no other character. -/
def NulTerminates (L : Locale) : Prop :=
  ∀ st, L.step st 0 = .bad ∨ ∃ st', L.step st 0 = .char 0 st'

/-! ## Decoding a byte sequence as a whole -/

/-- The columns contributed by a character other than the tab: 2 for a control
character, otherwise its `wcwidth`, or 0 when that is negative. -/
def charColumns (L : Locale) (wc : Nat) : Nat :=
  if L.iswcntrl wc then 2 else (max 0 (L.wcwidth wc)).toNat

/-- Decoding of a byte sequence into characters, byte by byte, where `used` bytes
of the current character have been consumed. The result is `none` when a byte is
rejected, when a character would need more than `MB_CUR_MAX` bytes, when the
null character is decoded, or when the sequence ends inside a character. -/
def decodeFrom (L : Locale) : L.State → Nat → List Nat → Option (List Nat × L.State)
  | st, used, [] => if used = 0 then some ([], st) else none
  | st, used, b :: bs =>
    if used < L.MB_CUR_MAX then
      match L.step st b with
      | .bad => none
      | .more st' => decodeFrom L st' (used + 1) bs
      | .char wc st' =>
        if wc = 0 then none
        else (decodeFrom L st' 0 bs).map (fun r => (wc :: r.1, r.2))
    else none

/-! ## The display: windows, library calls and program state -/

/-- Largest value of the type `int`. -/
def INT_MAX : Int := 2 ^ 31 - 1

/-- Conversion of an `int` to `size_t`, as in the comparison `cursor_col >= COLS`. -/
def size_of_int (x : Int) : Nat := (x % (SIZE_MOD : Int)).toNat

/-- Conversion of a `size_t` to `int`, as in the argument of `wmove`. -/
def int_of_size (c : Nat) : Int :=
  if c % 2 ^ 32 < 2 ^ 31 then ((c % 2 ^ 32 : Nat) : Int) else ((c % 2 ^ 32 : Nat) : Int) - 2 ^ 32

/-- The three window variables of the program. -/
inductive Win where
  | msg_win
  | sep_win
  | cmd_win
  deriving DecidableEq, Repr

/-- Size and position of a window: rows, columns, and the screen row and column
of its upper left corner. -/
structure Geometry where
  lines : Int
  cols : Int
  begy : Int
  begx : Int
  deriving DecidableEq, Repr

/-- Background attributes passed to `wbkgd`. -/
inductive Attr where
  | COLOR_PAIR (n : Int)
  | A_STANDOUT
  deriving DecidableEq, Repr

/-- The calls of the display library made by the program, with their arguments. -/
inductive Call where
  | initscr
  | endwin
  | has_colors
  | start_color
  | use_default_colors
  | cbreak
  | noecho
  | nonl
  | intrflush
  | curs_set (visibility : Int)
  | newwin (w : Win) (lines cols begy begx : Int)
  | scrollok (w : Win)
  | init_pair (pair fg bg : Int)
  | wbkgd (w : Win) (a : Attr)
  | werase (w : Win)
  | mvwaddstr (w : Win) (y x : Int) (str : List Nat)
  | mvwprintw (w : Win) (y x : Int) (str1 str2 : List Nat)
  | wmove (w : Win) (y x : Int)
  | wnoutrefresh (w : Win)
  | wrefresh (w : Win)
  | doupdate
  | wresize (w : Win) (lines cols : Int)
  | mvwin (w : Win) (y x : Int)
  deriving DecidableEq, Repr

/-- The state of the program and of the display library: the terminal size, the
geometry of the window behind each window variable, the global variables of the
program, the variables of the line editor that the program reads, and the
library calls made so far, oldest first. The window variables are read only
after `init_ncurses` has checked that none of them is `NULL`. -/
structure Screen where
  LINES : Int
  COLS : Int
  msg_win : Geometry
  sep_win : Geometry
  cmd_win : Geometry
  visual_mode : Bool
  msg_win_str : Option (List Nat)
  rl_display_prompt : List Nat
  rl_line_buffer : List Nat
  rl_point : Nat
  trace : List Call

/-- The behaviour of the display library that the program cannot control: which
calls fail (return `ERR` or `NULL`), given the calls made before, and whether the
terminal has colors. -/
structure Env where
  fails : List Call → Call → Bool
  has_colors : Bool

/-- Why the program stopped. -/
inductive Abort where
  /-- The function `fail_exit` was called after this library call failed. -/
  | exit (final : Screen) (failed : Call)
  /-- The function `strnwidth` read outside a string. -/
  | fault (f : Fault)

/-- The window behind a window variable. -/
def Screen.win (t : Screen) : Win → Geometry
  | .msg_win => t.msg_win
  | .sep_win => t.sep_win
  | .cmd_win => t.cmd_win

/-- Assignment to the window behind a window variable. -/
def Screen.setWin (t : Screen) (w : Win) (g : Geometry) : Screen :=
  match w with
  | .msg_win => { t with msg_win := g }
  | .sep_win => { t with sep_win := g }
  | .cmd_win => { t with cmd_win := g }

/-- The effect of a successful library call on the windows: `newwin` creates a
window of the given size at the given position, `wresize` changes the size,
`mvwin` changes the position; the other calls leave all geometry unchanged. -/
def effect : Call → Screen → Screen
  | .newwin w l c y x, t => t.setWin w ⟨l, c, y, x⟩
  | .wresize w l c, t => t.setWin w { t.win w with lines := l, cols := c }
  | .mvwin w y x, t => t.setWin w { t.win w with begy := y, begx := x }
  | _, t => t

/-- Recording a library call in the trace. -/
def record (c : Call) (t : Screen) : Screen := { t with trace := t.trace ++ [c] }

/-- A library call whose result the program ignores. -/
def call (E : Env) (c : Call) (t : Screen) : Screen :=
  if E.fails t.trace c then record c t else record c (effect c t)

/-- The function `fail_exit` (lines 26-34): `endwin` is called in visual mode
only, then the program exits. -/
def fail_exit (t : Screen) (failed : Call) : Abort :=
  .exit (if t.visual_mode then record .endwin t else t) failed

/-- The macro `CHECK` (lines 38-42): the call is made, and when it fails the
program exits through `fail_exit`. -/
def CHECK (E : Env) (c : Call) (t : Screen) : Except Abort Screen :=
  if E.fails t.trace c then .error (fail_exit (record c t) c)
  else .ok (record c (effect c t))

/-- The function `msg_win_redisplay` (lines 140-150). -/
def msg_win_redisplay (E : Env) (for_resize : Bool) (t : Screen) : Except Abort Screen := do
  let t ← CHECK E (.werase .msg_win) t
  let t ← CHECK E (.mvwaddstr .msg_win 0 0 (t.msg_win_str.getD [])) t
  if for_resize then CHECK E (.wnoutrefresh .msg_win) t
  else CHECK E (.wrefresh .msg_win) t

/-- The computation of `cursor_col` (lines 169-171 of `cmd_win_redisplay`). -/
def cursor_col (L : Locale) (prompt buffer : List Nat) (point : Nat) : Except Fault Nat :=
  match strwidth L prompt 0 with
  | .error f => .error f
  | .ok prompt_width =>
    match strnwidth L buffer point prompt_width with
    | .error f => .error f
    | .ok w => .ok (size_add prompt_width w)

/-- The function `cmd_win_redisplay` (lines 167-190). The results of `mvwprintw`
and `curs_set` are ignored. -/
def cmd_win_redisplay (L : Locale) (E : Env) (for_resize : Bool) (t : Screen) :
    Except Abort Screen :=
  match cursor_col L t.rl_display_prompt t.rl_line_buffer t.rl_point with
  | .error f => .error (.fault f)
  | .ok col => do
    let t ← CHECK E (.werase .cmd_win) t
    let t := call E (.mvwprintw .cmd_win 0 0 t.rl_display_prompt t.rl_line_buffer) t
    let t ← (if col ≥ size_of_int t.COLS then
        (.ok (call E (.curs_set 0) t) : Except Abort Screen)
      else do
        let t ← CHECK E (.wmove .cmd_win 0 (int_of_size col)) t
        .ok (call E (.curs_set 2) t))
    if for_resize then CHECK E (.wnoutrefresh .cmd_win) t
    else CHECK E (.wrefresh .cmd_win) t

/-- The function `resize` (lines 197-213). -/
def resize (L : Locale) (E : Env) (t : Screen) : Except Abort Screen := do
  let t ← (if t.LINES ≥ 3 then do
      let t ← CHECK E (.wresize .msg_win (t.LINES - 2) t.COLS) t
      let t ← CHECK E (.wresize .sep_win 1 t.COLS) t
      let t ← CHECK E (.wresize .cmd_win 1 t.COLS) t
      let t ← CHECK E (.mvwin .sep_win (t.LINES - 2) 0) t
      CHECK E (.mvwin .cmd_win (t.LINES - 1) 0) t
    else (.ok t : Except Abort Screen))
  let t ← msg_win_redisplay E true t
  let t ← CHECK E (.wnoutrefresh .sep_win) t
  let t ← cmd_win_redisplay L E true t
  CHECK E .doupdate t

/-- The function `init_ncurses` (lines 215-268). The three windows are created
before any of the three results is tested. -/
def init_ncurses (E : Env) (t : Screen) : Except Abort Screen := do
  let t ← (if E.fails t.trace .initscr then
      (.error (fail_exit (record .initscr t) .initscr) : Except Abort Screen)
    else .ok (record .initscr t))
  let t := { t with visual_mode := true }
  let t := call E .has_colors t
  let t ← (if E.has_colors then do
      let t ← CHECK E .start_color t
      CHECK E .use_default_colors t
    else (.ok t : Except Abort Screen))
  let t ← CHECK E .cbreak t
  let t ← CHECK E .noecho t
  let t ← CHECK E .nonl t
  let t ← CHECK E .intrflush t
  let t := call E (.curs_set 2) t
  let news : Call × Call × Call :=
    if t.LINES ≥ 3 then
      (.newwin .msg_win (t.LINES - 2) t.COLS 0 0,
       .newwin .sep_win 1 t.COLS (t.LINES - 2) 0,
       .newwin .cmd_win 1 t.COLS (t.LINES - 1) 0)
    else
      (.newwin .msg_win 1 t.COLS 0 0,
       .newwin .sep_win 1 t.COLS 0 0,
       .newwin .cmd_win 1 t.COLS 0 0)
  let null1 := E.fails t.trace news.1
  let t := call E news.1 t
  let null2 := E.fails t.trace news.2.1
  let t := call E news.2.1 t
  let null3 := E.fails t.trace news.2.2
  let t := call E news.2.2 t
  let t ← (if null1 || null2 || null3 then
      (.error (fail_exit t (if null1 then news.1 else if null2 then news.2.1 else news.2.2)) :
        Except Abort Screen)
    else .ok t)
  let t ← CHECK E (.scrollok .msg_win) t
  let t := call E .has_colors t
  let t ← (if E.has_colors then do
      let t ← CHECK E (.init_pair 1 7 4) t
      CHECK E (.wbkgd .sep_win (.COLOR_PAIR 1)) t
    else CHECK E (.wbkgd .sep_win .A_STANDOUT) t)
  CHECK E (.wrefresh .sep_win) t

/-- A display library in which every call succeeds. -/
def quietEnv : Env where
  fails := fun _ _ => false
  has_colors := true

/-- A program state used to instantiate the development: an 80-column terminal
with 24 rows laid out as `init_ncurses` does, the prompt `"> "` and the buffer
`"a\tb"` with the cursor behind the tab. -/
def demoScreen : Screen where
  LINES := 24
  COLS := 80
  msg_win := ⟨22, 80, 0, 0⟩
  sep_win := ⟨1, 80, 22, 0⟩
  cmd_win := ⟨1, 80, 23, 0⟩
  visual_mode := true
  msg_win_str := none
  rl_display_prompt := [0x3E, 0x20]
  rl_line_buffer := [0x61, 9, 0x62]
  rl_point := 2
  trace := []

/-- A display library in which no call fails. -/
def Env.NoFailure (E : Env) : Prop := ∀ h c, E.fails h c = false

/-- The library calls whose result the program never tests: `mvwprintw`
(lines 174-176) and `curs_set` (lines 180, 183 and 232-237). -/
def Call.ignored : Call → Bool
  | .mvwprintw _ _ _ _ _ => true
  | .curs_set _ => true
  | _ => false

/-- A display library in which every call whose result the program tests
succeeds; `mvwprintw` and `curs_set` may fail. -/
def Env.ChecksSucceed (E : Env) : Prop := ∀ h c, c.ignored = false → E.fails h c = false

/-- A display library in which `mvwprintw` and `curs_set` always fail and every
other call succeeds. -/
def clippingEnv : Env where
  fails := fun _ c => c.ignored
  has_colors := true

/-- The strings of the line editor are C strings that fit the address space. -/
def Screen.StringsOk (t : Screen) : Prop :=
  IsCString t.rl_display_prompt ∧ IsCString t.rl_line_buffer ∧
    t.rl_display_prompt.length < SIZE_MOD ∧ t.rl_line_buffer.length < SIZE_MOD

/-- The screen row `r` is one of the rows of the window. -/
def Geometry.hasRow (g : Geometry) (r : Int) : Prop := g.begy ≤ r ∧ r < g.begy + g.lines

/-- The calls made by a run that leads from the state `t` to the state `t'`. -/
def callsBetween (t t' : Screen) : List Call := t'.trace.drop t.trace.length

/-! ## Arithmetic on `size_t` -/

theorem size_add_lt (a b : Nat) : size_add a b < SIZE_MOD :=
  Nat.mod_lt _ (by unfold SIZE_MOD; norm_num)

theorem size_sub_lt (a b : Nat) : size_sub a b < SIZE_MOD :=
  Nat.mod_lt _ (by unfold SIZE_MOD; norm_num)

theorem size_add_of_lt {a b : Nat} (h : a + b < SIZE_MOD) : size_add a b = a + b :=
  Nat.mod_eq_of_lt h

theorem size_add_zero {a : Nat} (h : a < SIZE_MOD) : size_add a 0 = a :=
  Nat.mod_eq_of_lt h

theorem size_sub_of_le {a b : Nat} (hb : b ≤ a) (ha : a < SIZE_MOD) :
    size_sub a b = a - b := by
  unfold size_sub
  have hb' : b < SIZE_MOD := lt_of_le_of_lt hb ha
  rw [Nat.mod_eq_of_lt ha, Nat.mod_eq_of_lt hb']
  have : a + (SIZE_MOD - b) = (a - b) + SIZE_MOD := by omega
  rw [this, Nat.add_mod_right, Nat.mod_eq_of_lt (by omega)]

theorem land_not7 (y : Nat) (hy : y < 2 ^ 64) : y &&& (2 ^ 64 - 8) = 8 * (y / 8) := by
  apply Nat.eq_of_testBit_eq
  intro j
  have h8 : (8 : Nat) = 2 ^ 3 := by norm_num
  have hc : (2 ^ 64 - 8 : Nat) = 2 ^ 3 * (2 ^ 61 - 1) := by norm_num
  rw [Nat.testBit_and, hc, h8, Nat.testBit_mul_pow_two, Nat.testBit_mul_pow_two,
    Nat.testBit_two_pow_sub_one, ← Nat.shiftRight_eq_div_pow, Nat.testBit_shiftRight]
  by_cases h3 : 3 ≤ j
  · have : 3 + (j - 3) = j := by omega
    simp only [h3, decide_True, Bool.true_and, this]
    by_cases h64 : j < 64
    · have : j - 3 < 61 := by omega
      simp [this]
    · have : ¬ (j - 3 < 61) := by omega
      simp only [this, decide_False, Bool.and_false]
      symm
      apply Nat.testBit_lt_two_pow
      calc y < 2 ^ 64 := hy
        _ ≤ 2 ^ j := Nat.pow_le_pow_right (by norm_num) (by omega)
  · simp [h3]

theorem size_and_not7_eq (x : Nat) (hx : x < SIZE_MOD) : size_and_not7 x = 8 * (x / 8) := by
  unfold size_and_not7
  rw [Nat.mod_eq_of_lt hx]
  exact land_not7 x hx

/-! ## Reading the string -/

theorem readByte_of_lt {s : List Nat} {j : Nat} (h : j < s.length) :
    readByte s j = some s[j] := by
  simp [readByte, List.getElem?_eq_getElem h]

theorem readByte_length (s : List Nat) : readByte s s.length = some 0 := by
  simp [readByte]

theorem readByte_some_le {s : List Nat} {j b : Nat} (h : readByte s j = some b) :
    j ≤ s.length := by
  unfold readByte at h
  cases hj : s[j]? with
  | some c =>
    have := (List.getElem?_eq_some_iff.mp hj).1
    omega
  | none =>
    rw [hj] at h
    by_cases e : j = s.length
    · omega
    · simp [e] at h

theorem readByte_nonzero_lt {s : List Nat} {j b : Nat} (h : readByte s j = some b)
    (hb : b ≠ 0) : j < s.length := by
  have hle := readByte_some_le h
  rcases Nat.lt_or_ge j s.length with hlt | hge
  · exact hlt
  · have e : j = s.length := by omega
    subst e
    rw [readByte_length] at h
    exact absurd (Option.some.inj h).symm hb

theorem readByte_cstring {s : List Nat} (hs : IsCString s) {j : Nat} (h : j < s.length) :
    ∃ b, readByte s j = some b ∧ b ≠ 0 :=
  ⟨s[j], readByte_of_lt h, hs _ (List.getElem_mem h)⟩

theorem readByte_append_right (p b : List Nat) (j : Nat) :
    readByte (p ++ b) (p.length + j) = readByte b j := by
  unfold readByte
  rw [List.getElem?_append_right (by omega)]
  simp

theorem strnlen_cstring {s : List Nat} (hs : IsCString s) {i : Nat} (hi : i ≤ s.length)
    (m : Nat) : strnlen s i m = some (min (s.length - i) m) := by
  unfold strnlen
  rw [if_pos hi]
  have : (s.drop i).takeWhile (fun b => b != 0) = s.drop i := by
    rw [List.takeWhile_eq_self_iff]
    intro b hb
    have := hs b (List.mem_of_mem_drop hb)
    simpa using this
  rw [this, List.length_drop]

/-! ## The decoder stays inside the string -/

theorem mbrtowc_no_fault {L : Locale} (hL : NulTerminates L) {s : List Nat}
    (hs : IsCString s) (i : Nat) :
    ∀ (limit used : Nat) (st : L.State), i + used ≤ s.length →
      mbrtowc L s i limit used st ≠ .fault := by
  intro limit
  induction limit with
  | zero => intro used st _; simp [mbrtowc]
  | succ l ih =>
    intro used st hle
    unfold mbrtowc
    rcases Nat.lt_or_ge (i + used) s.length with hlt | hge
    · obtain ⟨b, hb, hb0⟩ := readByte_cstring hs hlt
      rw [hb]
      cases hstep : L.step st b with
      | bad => simp [hstep]
      | more st' =>
        simp only [hstep]
        exact ih (used + 1) st' (by omega)
      | char wc st' =>
        simp only [hstep]
        split <;> simp
    · have e : i + used = s.length := by omega
      rw [e, readByte_length]
      rcases hL st with h | ⟨st', h⟩
      · simp [h]
      · simp [h]

theorem mbrtowc_char_bound {L : Locale} (hL : NulTerminates L) {s : List Nat} (i : Nat) :
    ∀ (limit used : Nat) (st : L.State) (wc len : Nat) (st' : L.State),
      mbrtowc L s i limit used st = .char wc len st' →
      used < len ∧ len ≤ used + limit ∧ i + len ≤ s.length ∧ wc ≠ 0 := by
  intro limit
  induction limit with
  | zero => intro used st wc len st' h; simp [mbrtowc] at h
  | succ l ih =>
    intro used st wc len st' h
    unfold mbrtowc at h
    cases hr : readByte s (i + used) with
    | none => simp [hr] at h
    | some b =>
      rw [hr] at h
      cases hstep : L.step st b with
      | bad => simp [hstep] at h
      | more st1 =>
        simp only [hstep] at h
        obtain ⟨h1, h2, h3, h4⟩ := ih (used + 1) st1 wc len st' h
        exact ⟨by omega, by omega, h3, h4⟩
      | char wc1 st1 =>
        simp only [hstep] at h
        by_cases h0 : wc1 = 0
        · simp [h0] at h
        · simp only [h0, if_false, MbResult.char.injEq] at h
          obtain ⟨rfl, rfl, rfl⟩ := h
          have hb : b ≠ 0 := by
            intro hb
            subst hb
            rcases hL st with h | ⟨st2, h⟩
            · rw [h] at hstep; cases hstep
            · rw [h] at hstep
              cases hstep
              exact h0 rfl
          have := readByte_nonzero_lt hr hb
          exact ⟨by omega, by omega, by omega, h0⟩

/-- At the terminator the decoder yields the null character or fails. -/
theorem mbrtowc_at_end {L : Locale} (hL : NulTerminates L) (s : List Nat) (limit : Nat)
    (st : L.State) :
    (∃ st', mbrtowc L s s.length limit 0 st = .nul st') ∨
      mbrtowc L s s.length limit 0 st = .invalid ∨
      (∃ st', mbrtowc L s s.length limit 0 st = .incomplete st') := by
  cases limit with
  | zero => right; right; exact ⟨st, by simp [mbrtowc]⟩
  | succ l =>
    unfold mbrtowc
    rw [Nat.add_zero, readByte_length]
    rcases hL st with h | ⟨st', h⟩
    · right; left; simp [h]
    · left; exact ⟨st', by simp [h]⟩

/-! ## One pass through the loop -/

theorem widthStep_lt (L : Locale) (wc w o : Nat) : widthStep L wc w o < SIZE_MOD := by
  unfold widthStep
  split
  · exact size_sub_lt _ _
  · exact size_add_lt _ _

theorem strnwidthLoop_succ (L : Locale) (s : List Nat) (n o fuel i : Nat) (st : L.State)
    (w : Nat) :
    strnwidthLoop L s n o (fuel + 1) i st w =
      match loopBody L s n o i st w with
      | .fault => .error .outOfBounds
      | .done w => .ok w
      | .next i' st' w => strnwidthLoop L s n o fuel i' st' w := rfl

/-- A pass that goes back to the loop head has decoded a character that lies
inside the string. -/
theorem loopBody_next {L : Locale} (hL : NulTerminates L) {s : List Nat}
    (hlen : s.length < SIZE_MOD) {n o i : Nat} {st : L.State} {w i' : Nat} {st' : L.State}
    {w' : Nat} (h : loopBody L s n o i st w = .next i' st' w') :
    ∃ wc len, mbrtowc L s i L.MB_CUR_MAX 0 st = .char wc len st' ∧ i < n ∧ 0 < len ∧
      i' = i + len ∧ i + len ≤ s.length ∧ w' = widthStep L wc w o := by
  unfold loopBody at h
  by_cases hin : i < n
  · rw [if_pos hin] at h
    cases hm : mbrtowc L s i L.MB_CUR_MAX 0 st with
    | fault => simp [hm] at h
    | nul st1 => simp [hm] at h
    | invalid =>
      simp only [hm] at h
      cases hk : strnlen s i (size_sub n i) <;> simp [hk] at h
    | incomplete st1 =>
      simp only [hm] at h
      cases hk : strnlen s i (size_sub n i) <;> simp [hk] at h
    | char wc len st1 =>
      simp only [hm, Ctl.next.injEq] at h
      obtain ⟨h1, h2, h3⟩ := h
      obtain ⟨b1, _, b3, _⟩ := mbrtowc_char_bound hL i _ _ _ _ _ _ hm
      subst h2
      refine ⟨wc, len, rfl, hin, b1, ?_, b3, h3.symm⟩
      rw [← h1]
      exact size_add_of_lt (by omega)
  · rw [if_neg hin] at h
    cases h

theorem loopBody_no_fault {L : Locale} (hL : NulTerminates L) {s : List Nat}
    (hs : IsCString s) (n o : Nat) {i : Nat} (hi : i ≤ s.length) (st : L.State) (w : Nat) :
    loopBody L s n o i st w ≠ .fault := by
  unfold loopBody
  have hnf := mbrtowc_no_fault hL hs i L.MB_CUR_MAX 0 st (by omega)
  have hsl := strnlen_cstring hs hi (size_sub n i)
  split
  · cases hm : mbrtowc L s i L.MB_CUR_MAX 0 st with
    | fault => exact absurd hm hnf
    | nul st1 => simp
    | invalid => simp [hsl]
    | incomplete st1 => simp [hsl]
    | char wc len st1 => simp
  · simp

/-- At the terminator every pass ends the loop with the width unchanged. -/
theorem loopBody_at_end {L : Locale} (hL : NulTerminates L) {s : List Nat}
    (hs : IsCString s) (n o : Nat) (st : L.State) {w : Nat} (hw : w < SIZE_MOD) :
    loopBody L s n o s.length st w = .done w := by
  unfold loopBody
  have hsl := strnlen_cstring hs (Nat.le_refl s.length) (size_sub n s.length)
  simp only [Nat.sub_self, Nat.zero_min] at hsl
  split
  · rcases mbrtowc_at_end hL s L.MB_CUR_MAX st with ⟨st', h⟩ | h | ⟨st', h⟩
    · simp [h]
    · simp [h, hsl, size_add_zero hw]
    · simp [h, hsl, size_add_zero hw]
  · rfl

/-- Before the terminator, a bound at or beyond the end of the string behaves
like the bound `SIZE_MAX`. -/
theorem loopBody_bound_beyond {L : Locale} {s : List Nat} (hs : IsCString s) {n : Nat}
    (hn : s.length ≤ n) (hn' : n ≤ SIZE_MAX) (o : Nat) {i : Nat} (hi : i < s.length)
    (st : L.State) (w : Nat) :
    loopBody L s n o i st w = loopBody L s SIZE_MAX o i st w := by
  have hM : SIZE_MAX < SIZE_MOD := by unfold SIZE_MAX SIZE_MOD; norm_num
  unfold loopBody
  rw [if_pos (by omega : i < n), if_pos (by omega : i < SIZE_MAX)]
  rw [strnlen_cstring hs (Nat.le_of_lt hi), strnlen_cstring hs (Nat.le_of_lt hi),
    size_sub_of_le (by omega) (by omega), size_sub_of_le (by omega) hM,
    Nat.min_eq_left (by omega), Nat.min_eq_left (by omega)]

/-! ## The loop as a whole -/

/-- The loop ends with a value whenever the budget exceeds the number of bytes
left in the string. -/
theorem strnwidthLoop_total {L : Locale} (hL : NulTerminates L) {s : List Nat}
    (hs : IsCString s) (hlen : s.length < SIZE_MOD) (n o : Nat) :
    ∀ (fuel i : Nat) (st : L.State) (w : Nat), i ≤ s.length → s.length - i < fuel →
      ∃ v, strnwidthLoop L s n o fuel i st w = .ok v := by
  intro fuel
  induction fuel with
  | zero => intro i st w _ h; omega
  | succ f ih =>
    intro i st w hi hf
    rw [strnwidthLoop_succ]
    cases hb : loopBody L s n o i st w with
    | fault => exact absurd hb (loopBody_no_fault hL hs n o hi st w)
    | done v => exact ⟨v, rfl⟩
    | next i' st' w' =>
      obtain ⟨wc, len, _, _, hpos, rfl, hle, _⟩ := loopBody_next hL hlen hb
      exact ih _ st' w' hle (by omega)

theorem strnwidthLoop_beyond {L : Locale} (hL : NulTerminates L) {s : List Nat}
    (hs : IsCString s) {n : Nat} (hn : s.length ≤ n) (hn' : n ≤ SIZE_MAX) (o : Nat) :
    ∀ (fuel i : Nat) (st : L.State) (w : Nat), i ≤ s.length → w < SIZE_MOD →
      strnwidthLoop L s n o fuel i st w = strnwidthLoop L s SIZE_MAX o fuel i st w := by
  have hM : SIZE_MAX < SIZE_MOD := by unfold SIZE_MAX SIZE_MOD; norm_num
  intro fuel
  induction fuel with
  | zero => intro i st w _ _; rfl
  | succ f ih =>
    intro i st w hi hw
    rw [strnwidthLoop_succ, strnwidthLoop_succ]
    rcases Nat.lt_or_ge i s.length with hlt | hge
    · rw [loopBody_bound_beyond hs hn hn' o hlt st w]
      cases hb : loopBody L s SIZE_MAX o i st w with
      | fault => rfl
      | done v => rfl
      | next i' st' w' =>
        obtain ⟨wc, len, _, _, _, rfl, hle, rfl⟩ := loopBody_next hL (by omega) hb
        exact ih _ st' _ hle (widthStep_lt _ _ _ _)
    · have e : i = s.length := by omega
      subst e
      rw [loopBody_at_end hL hs n o st hw, loopBody_at_end hL hs SIZE_MAX o st hw]

/-! ## The UTF-8 locale is well behaved -/

theorem utf8_nulTerminates : NulTerminates utf8 := by
  intro st
  show utf8Step st 0 = .bad ∨ ∃ st', utf8Step st 0 = .char 0 st'
  unfold utf8Step
  cases st.need with
  | zero => right; exact ⟨⟨0, 0, 0⟩, by simp⟩
  | succ k => left; simp

theorem SIZE_MAX_lt : SIZE_MAX < SIZE_MOD := by
  unfold SIZE_MAX SIZE_MOD; norm_num

/-! ## Prefix lengths at or beyond the end of the string -/

/-- C1: for a NUL-terminated string `s`, an offset `o` and a prefix length
`n >= len(s)`, `strnwidth(s, n, o) = strwidth(s, o) = strnwidth(s, SIZE_MAX, o)`,
and the call returns a value, so that no byte past the terminator is read. -/
theorem strnwidth_beyond_end (L : Locale) (hL : NulTerminates L) (s : List Nat)
    (hs : IsCString s) (n o : Nat) (hn : s.length ≤ n) (hn' : n ≤ SIZE_MAX) :
    strnwidth L s n o = strwidth L s o ∧ strwidth L s o = strnwidth L s SIZE_MAX o ∧
      ∃ w, strnwidth L s n o = .ok w := by
  have hlen : s.length < SIZE_MOD := lt_of_le_of_lt (le_trans hn hn') SIZE_MAX_lt
  refine ⟨?_, rfl, ?_⟩
  · exact strnwidthLoop_beyond hL hs hn hn' o _ 0 L.init 0 (Nat.zero_le _)
      (by unfold SIZE_MOD; norm_num)
  · exact strnwidthLoop_total hL hs hlen n o _ 0 L.init 0 (Nat.zero_le _) (by omega)

theorem strnwidth_beyond_end_witness :
    strnwidth utf8 [0x61, 0xE4, 0xB8, 0xAD] 7 3 = strwidth utf8 [0x61, 0xE4, 0xB8, 0xAD] 3 ∧
      strwidth utf8 [0x61, 0xE4, 0xB8, 0xAD] 3 =
        strnwidth utf8 [0x61, 0xE4, 0xB8, 0xAD] SIZE_MAX 3 ∧
      ∃ w, strnwidth utf8 [0x61, 0xE4, 0xB8, 0xAD] 7 3 = .ok w :=
  strnwidth_beyond_end utf8 utf8_nulTerminates [0x61, 0xE4, 0xB8, 0xAD] (by decide) 7 3
    (by decide) (by unfold SIZE_MAX SIZE_MOD; norm_num)

/-! ## Tab stops -/

theorem widthStep_tab (L : Locale) (w o : Nat) (h : o + w + 8 < SIZE_MOD) :
    o + widthStep L 9 w o = 8 * ((o + w) / 8 + 1) := by
  unfold widthStep
  have e1 : size_add w o = w + o := size_add_of_lt (by omega)
  have e2 : size_add (w + o) 8 = w + o + 8 := size_add_of_lt (by omega)
  rw [if_pos rfl, e1, e2, size_and_not7_eq _ (by omega),
    size_sub_of_le (by omega) (by omega)]
  omega

/-- C2: when the character decoded by a pass of the loop of `strnwidth` is a
horizontal tab, the running width is `w` and the offset is `o`, with
`o + w + 8` representable in `size_t`, the pass continues with a width `w'` such
that `o + w'` is the smallest multiple of 8 strictly greater than `o + w`. In a
locale where the byte 9 alone decodes to the tab character,
`strnwidth("\t", 1, 3) = 5` and `strnwidth("\t", 1, 0) = 8`. -/
theorem tab_advances_to_next_stop (L : Locale) (s : List Nat) (n o i : Nat)
    (st st' st9 : L.State) (len w : Nat) (hi : i < n)
    (hm : mbrtowc L s i L.MB_CUR_MAX 0 st = .char 9 len st')
    (hov : o + w + 8 < SIZE_MOD)
    (hmb : 0 < L.MB_CUR_MAX) (htab : L.step L.init 9 = .char 9 st9) :
    (∃ w', loopBody L s n o i st w = .next (size_add i len) st' w' ∧
      8 ∣ (o + w') ∧ o + w < o + w' ∧ ∀ m, 8 ∣ m → o + w < m → o + w' ≤ m) ∧
    strnwidth L [9] 1 3 = .ok 5 ∧ strnwidth L [9] 1 0 = .ok 8 := by
  have hbody : loopBody L s n o i st w = .next (size_add i len) st' (widthStep L 9 w o) := by
    unfold loopBody
    rw [if_pos hi, hm]
  have hone : mbrtowc L [9] 0 L.MB_CUR_MAX 0 L.init = .char 9 1 st9 := by
    obtain ⟨k, hk⟩ := Nat.exists_eq_succ_of_ne_zero (Nat.pos_iff_ne_zero.mp hmb)
    rw [hk]
    simp [mbrtowc, readByte, htab]
  have hrun : ∀ o' : Nat, strnwidth L [9] 1 o' = .ok (widthStep L 9 0 o') := by
    intro o'
    have h1 : loopBody L [9] 1 o' 0 L.init 0 = .next 1 st9 (widthStep L 9 0 o') := by
      unfold loopBody
      rw [if_pos (by norm_num), hone]
      rfl
    have h2 : loopBody L [9] 1 o' 1 st9 (widthStep L 9 0 o') = .done (widthStep L 9 0 o') := by
      unfold loopBody
      rw [if_neg (by norm_num)]
    show strnwidthLoop L [9] 1 o' (1 + 1 + 1) 0 L.init 0 = _
    rw [strnwidthLoop_succ, h1]
    simp only
    rw [strnwidthLoop_succ, h2]
  refine ⟨⟨widthStep L 9 w o, hbody, ?_, ?_, ?_⟩, ?_, ?_⟩
  · rw [widthStep_tab L w o hov]
    exact Dvd.intro _ rfl
  · rw [widthStep_tab L w o hov]
    omega
  · intro m hm8 hlt
    rw [widthStep_tab L w o hov]
    obtain ⟨k, rfl⟩ := hm8
    omega
  · rw [hrun 3]; rfl
  · rw [hrun 0]; rfl

theorem tab_advances_to_next_stop_witness :
    (∃ w', loopBody utf8 [9] 1 3 0 utf8.init 0 = .next (size_add 0 1) utf8.init w' ∧
      8 ∣ (3 + w') ∧ 3 + 0 < 3 + w' ∧ ∀ m, 8 ∣ m → 3 + 0 < m → 3 + w' ≤ m) ∧
    strnwidth utf8 [9] 1 3 = .ok 5 ∧ strnwidth utf8 [9] 1 0 = .ok 8 :=
  tab_advances_to_next_stop utf8 [9] 1 3 0 utf8.init utf8.init utf8.init 1 0 (by decide) rfl
    (by unfold SIZE_MOD; norm_num) (by decide) rfl

/-! ## The loop over a prefix that decodes without failure -/

theorem readByte_of_drop {s : List Nat} {j b : Nat} {t : List Nat}
    (h : s.drop j = b :: t) : readByte s j = some b := by
  have hj : j < s.length := by
    by_contra hge
    rw [List.drop_eq_nil_of_le (by omega)] at h
    cases h
  rw [readByte_of_lt hj]
  have h0 : (s.drop j)[0]? = some b := by rw [h]; simp
  rw [List.getElem?_drop, Nat.add_zero, List.getElem?_eq_getElem hj] at h0
  exact h0

theorem drop_add_of_drop {s bs rest : List Nat} {i : Nat} (h : s.drop i = bs ++ rest)
    {len : Nat} (hlen : len ≤ bs.length) : s.drop (i + len) = bs.drop len ++ rest := by
  rw [← List.drop_drop, h, List.drop_append_of_le_length hlen]

theorem decodeFrom_length (L : Locale) :
    ∀ (bs : List Nat) (st : L.State) (used : Nat) (chars : List Nat) (stEnd : L.State),
      decodeFrom L st used bs = some (chars, stEnd) → chars.length ≤ bs.length := by
  intro bs
  induction bs with
  | nil =>
    intro st used chars stEnd h
    unfold decodeFrom at h
    split at h
    · cases h; simp
    · cases h
  | cons b bs ih =>
    intro st used chars stEnd h
    unfold decodeFrom at h
    split at h
    · cases hstep : L.step st b with
      | bad => simp [hstep] at h
      | more st1 =>
        simp only [hstep] at h
        have := ih _ _ _ _ h
        simp only [List.length_cons]
        omega
      | char wc st1 =>
        simp only [hstep] at h
        split at h
        · cases h
        · cases hd : decodeFrom L st1 0 bs with
          | none => simp [hd] at h
          | some r =>
            obtain ⟨cs, se⟩ := r
            simp only [hd, Option.map_some', Option.some.injEq, Prod.mk.injEq] at h
            obtain ⟨rfl, rfl⟩ := h
            have := ih _ _ _ _ hd
            simp only [List.length_cons]
            omega
    · cases h

/-- The first character of a sequence that decodes without failure is what
`mbrtowc` returns. -/
theorem mbrtowc_of_decodeFrom {L : Locale} {s : List Nat} (i : Nat) :
    ∀ (bs : List Nat) (used limit : Nat) (st : L.State) (chars : List Nat)
      (stEnd : L.State) (rest : List Nat),
      decodeFrom L st used bs = some (chars, stEnd) → bs ≠ [] →
      s.drop (i + used) = bs ++ rest → used + limit = L.MB_CUR_MAX →
      ∃ wc len st' cs, mbrtowc L s i limit used st = .char wc len st' ∧ used < len ∧
        len - used ≤ bs.length ∧ chars = wc :: cs ∧
        decodeFrom L st' 0 (bs.drop (len - used)) = some (cs, stEnd) := by
  intro bs
  induction bs with
  | nil => intro used limit st chars stEnd rest _ h; exact absurd rfl h
  | cons b bs ih =>
    intro used limit st chars stEnd rest h _ hdrop hlim
    unfold decodeFrom at h
    by_cases hu : used < L.MB_CUR_MAX
    · rw [if_pos hu] at h
      obtain ⟨l, rfl⟩ : ∃ l, limit = l + 1 := ⟨limit - 1, by omega⟩
      have hr : readByte s (i + used) = some b := readByte_of_drop hdrop
      unfold mbrtowc
      rw [hr]
      cases hstep : L.step st b with
      | bad => simp [hstep] at h
      | more st1 =>
        simp only [hstep] at h ⊢
        have hne : bs ≠ [] := by
          intro e
          subst e
          simp [decodeFrom] at h
        have hdrop' : s.drop (i + (used + 1)) = bs ++ rest := by
          have := drop_add_of_drop hdrop (Nat.le_add_left 1 bs.length : 1 ≤ (b :: bs).length)
          simpa [Nat.add_assoc] using this
        obtain ⟨wc, len, st', cs, h1, h2, h3, h4, h5⟩ :=
          ih (used + 1) l st1 chars stEnd rest h hne hdrop' (by omega)
        refine ⟨wc, len, st', cs, h1, by omega, ?_, h4, ?_⟩
        · simp only [List.length_cons]; omega
        · have e : len - used = (len - (used + 1)) + 1 := by omega
          rw [e, List.drop_succ_cons]
          exact h5
      | char wc st1 =>
        simp only [hstep] at h ⊢
        by_cases h0 : wc = 0
        · simp [h0] at h
        · rw [if_neg h0] at h
          rw [if_neg h0]
          cases hd : decodeFrom L st1 0 bs with
          | none => simp [hd] at h
          | some r =>
            obtain ⟨cs, se⟩ := r
            simp only [hd, Option.map_some', Option.some.injEq, Prod.mk.injEq] at h
            obtain ⟨rfl, rfl⟩ := h
            refine ⟨wc, used + 1, st1, cs, rfl, by omega, ?_, rfl, ?_⟩
            · simp
            · simpa using hd
    · rw [if_neg hu] at h
      cases h

/-- Running the loop over a stretch of the string that decodes without failure
takes one pass per character and folds `widthStep` over the characters. -/
theorem strnwidthLoop_over_decoded {L : Locale} {s : List Nat} (hlen : s.length < SIZE_MOD)
    (n o : Nat) (stEnd : L.State) (rest : List Nat) :
    ∀ (chars bs : List Nat) (st : L.State) (i w fuel : Nat),
      decodeFrom L st 0 bs = some (chars, stEnd) → s.drop i = bs ++ rest →
      i + bs.length ≤ n →
      strnwidthLoop L s n o (chars.length + fuel) i st w =
        strnwidthLoop L s n o fuel (i + bs.length) stEnd
          (chars.foldl (fun w wc => widthStep L wc w o) w) := by
  intro chars
  induction chars with
  | nil =>
    intro bs st i w fuel hdec hdrop _
    cases bs with
    | nil =>
      simp only [decodeFrom, if_pos, Option.some.injEq, Prod.mk.injEq, true_and] at hdec
      subst hdec
      simp
    | cons b bs =>
      obtain ⟨wc, len, st', cs, _, _, _, h4, _⟩ :=
        mbrtowc_of_decodeFrom i (b :: bs) 0 L.MB_CUR_MAX st [] stEnd rest hdec (by simp)
          (by simpa using hdrop) (by omega)
      cases h4
  | cons c cs ih =>
    intro bs st i w fuel hdec hdrop hin
    have hne : bs ≠ [] := by
      intro e
      subst e
      simp [decodeFrom] at hdec
    obtain ⟨wc, len, st', cs', h1, h2, h3, h4, h5⟩ :=
      mbrtowc_of_decodeFrom i bs 0 L.MB_CUR_MAX st (c :: cs) stEnd rest hdec hne
        (by simpa using hdrop) (by omega)
    simp only [List.cons.injEq] at h4
    obtain ⟨rfl, rfl⟩ := h4
    simp only [Nat.sub_zero] at h3 h5
    have hbl : i + bs.length ≤ s.length := by
      have := congrArg List.length hdrop
      simp only [List.length_drop, List.length_append] at this
      have : 0 < bs.length := List.length_pos.mpr hne
      omega
    have hbody : loopBody L s n o i st w = .next (i + len) st' (widthStep L c w o) := by
      unfold loopBody
      rw [if_pos (by omega), h1]
      simp only
      rw [size_add_of_lt (by omega)]
    have hfuel : (c :: cs).length + fuel = (cs.length + fuel) + 1 := by
      simp only [List.length_cons]; omega
    rw [hfuel, strnwidthLoop_succ, hbody]
    simp only
    rw [ih (bs.drop len) st' (i + len) (widthStep L c w o) fuel h5
      (drop_add_of_drop hdrop h3) (by simp only [List.length_drop]; omega)]
    simp only [List.length_drop, List.foldl_cons]
    have : i + len + (bs.length - len) = i + bs.length := by omega
    rw [this]

theorem foldl_widthStep_no_tab (L : Locale) (o : Nat) :
    ∀ (chars : List Nat) (w : Nat), 9 ∉ chars →
      chars.foldl (fun w wc => widthStep L wc w o) w % SIZE_MOD =
        (w + (chars.map (charColumns L)).sum) % SIZE_MOD := by
  intro chars
  induction chars with
  | nil => intro w _; simp
  | cons c cs ih =>
    intro w hno
    have hc : c ≠ 9 := by
      intro e; apply hno; simp [e]
    have hcs : 9 ∉ cs := by
      intro e; apply hno; simp [e]
    simp only [List.foldl_cons, List.map_cons, List.sum_cons]
    rw [ih _ hcs]
    have : widthStep L c w o = (w + charColumns L c) % SIZE_MOD := by
      unfold widthStep
      rw [if_neg hc]
      rfl
    rw [this, Nat.add_mod, Nat.mod_mod, ← Nat.add_mod, Nat.add_assoc]

theorem foldl_widthStep_lt (L : Locale) (o : Nat) :
    ∀ (chars : List Nat) (w : Nat), w < SIZE_MOD →
      chars.foldl (fun w wc => widthStep L wc w o) w < SIZE_MOD := by
  intro chars
  induction chars with
  | nil => intro w hw; simpa using hw
  | cons c cs ih =>
    intro w _
    simp only [List.foldl_cons]
    exact ih _ (widthStep_lt _ _ _ _)

/-- The width of a prefix that decodes without failure and ends on a character
boundary. -/
theorem strnwidth_of_decodeFrom {L : Locale} {s : List Nat} (hlen : s.length < SIZE_MOD)
    {n : Nat} (hn : n ≤ s.length) (o : Nat) {chars : List Nat} {stEnd : L.State}
    (hdec : decodeFrom L L.init 0 (s.take n) = some (chars, stEnd)) :
    strnwidth L s n o = .ok (chars.foldl (fun w wc => widthStep L wc w o) 0) := by
  have hcl : chars.length ≤ n := by
    have := decodeFrom_length L _ _ _ _ _ hdec
    simpa [List.length_take, Nat.min_eq_left hn] using this
  have hfuel : s.length + 2 = chars.length + ((s.length + 1 - chars.length) + 1) := by omega
  unfold strnwidth
  rw [hfuel, strnwidthLoop_over_decoded hlen n o stEnd (s.drop n) chars (s.take n) L.init 0 0 _ hdec
    (by simp) (by simp [List.length_take, Nat.min_eq_left hn])]
  rw [strnwidthLoop_succ]
  have : 0 + (s.take n).length = n := by simp [List.length_take, Nat.min_eq_left hn]
  rw [this]
  unfold loopBody
  rw [if_neg (Nat.lt_irrefl n)]

/-! ## Widths of characters other than the tab -/

theorem decodeFrom_single_bytes {L : Locale} (hmb : 0 < L.MB_CUR_MAX) :
    ∀ (t : List Nat), (∀ b ∈ t, b ≠ 0 ∧ L.step L.init b = .char b L.init) →
      decodeFrom L L.init 0 t = some (t, L.init) := by
  intro t
  induction t with
  | nil => intro _; simp [decodeFrom]
  | cons b bs ih =>
    intro h
    obtain ⟨hb0, hstep⟩ := h b (by simp)
    have hrest := ih (fun c hc => h c (by simp [hc]))
    unfold decodeFrom
    rw [if_pos hmb, hstep]
    simp only [hb0, if_false, hrest, Option.map_some']

/-- C3: when the first `n` bytes of `s` (`n <= len(s)`, `n` on a character
boundary) decode without failure into characters none of which is a tab, then
for every offset `o` the value `strnwidth(s, n, o)` is the sum over these
characters of 2 for a control character and `max(0, wcwidth)` otherwise, taken
in `size_t`. In a locale where the byte 1 decodes to a control character,
`strnwidth("\x01", 1, 0) = 2`; and for a string `t` of single-byte characters
that are not control characters and have `wcwidth` 1, `strnwidth(t, k, p) = k`
for every `k <= len(t)` and every offset `p`. -/
theorem strnwidth_sum_of_columns (L : Locale) (s : List Nat) (n o : Nat)
    (chars : List Nat) (stEnd st1 : L.State) (t : List Nat) (k p : Nat)
    (hlen : s.length < SIZE_MOD) (hn : n ≤ s.length)
    (hdec : decodeFrom L L.init 0 (s.take n) = some (chars, stEnd)) (htab : 9 ∉ chars)
    (hmb : 0 < L.MB_CUR_MAX) (h1 : L.step L.init 1 = .char 1 st1)
    (hc1 : L.iswcntrl 1 = true)
    (ht : t.length < SIZE_MOD) (hk : k ≤ t.length)
    (hascii : ∀ b ∈ t, b ≠ 0 ∧ b ≠ 9 ∧ L.step L.init b = .char b L.init ∧
      L.iswcntrl b = false ∧ L.wcwidth b = 1) :
    strnwidth L s n o = .ok ((chars.map (charColumns L)).sum % SIZE_MOD) ∧
      strnwidth L [1] 1 0 = .ok 2 ∧ strnwidth L t k p = .ok k := by
  have hM : (0 : Nat) < SIZE_MOD := by unfold SIZE_MOD; norm_num
  have key : ∀ (s' : List Nat) (n' o' : Nat) (cs : List Nat) (se : L.State),
      s'.length < SIZE_MOD → n' ≤ s'.length →
      decodeFrom L L.init 0 (s'.take n') = some (cs, se) → 9 ∉ cs →
      strnwidth L s' n' o' = .ok ((cs.map (charColumns L)).sum % SIZE_MOD) := by
    intro s' n' o' cs se hl hn' hd hno
    rw [strnwidth_of_decodeFrom hl hn' o' hd]
    have h := foldl_widthStep_no_tab L o' cs 0 hno
    rw [Nat.mod_eq_of_lt (foldl_widthStep_lt L o' cs 0 hM), Nat.zero_add] at h
    rw [h]
  refine ⟨key s n o chars stEnd hlen hn hdec htab, ?_, ?_⟩
  · have hd : decodeFrom L L.init 0 (([1] : List Nat).take 1) = some ([1], st1) := by
      simp [decodeFrom, hmb, h1]
    rw [key [1] 1 0 [1] st1 (by simp [SIZE_MOD]) (by simp) hd (by simp)]
    simp [charColumns, hc1, SIZE_MOD]
  · have hd : decodeFrom L L.init 0 (t.take k) = some (t.take k, L.init) :=
      decodeFrom_single_bytes hmb _
        (fun b hb => ⟨(hascii b (List.mem_of_mem_take hb)).1,
          (hascii b (List.mem_of_mem_take hb)).2.2.1⟩)
    have hno : 9 ∉ t.take k := fun h9 => (hascii 9 (List.mem_of_mem_take h9)).2.1 rfl
    rw [key t k p (t.take k) L.init ht hk hd hno]
    have hsum : ∀ (l : List Nat), (∀ b ∈ l, charColumns L b = 1) →
        (l.map (charColumns L)).sum = l.length := by
      intro l
      induction l with
      | nil => intro _; rfl
      | cons a l ih =>
        intro h
        simp only [List.map_cons, List.sum_cons, List.length_cons]
        rw [h a (by simp), ih (fun b hb => h b (by simp [hb]))]
        omega
    rw [hsum (t.take k) (fun b hb => by
      obtain ⟨_, _, _, hc, hw⟩ := hascii b (List.mem_of_mem_take hb)
      simp [charColumns, hc, hw])]
    rw [List.length_take, Nat.min_eq_left hk, Nat.mod_eq_of_lt (by omega)]

theorem strnwidth_sum_of_columns_witness :
    strnwidth utf8 [0x61, 0xCC, 0x81, 0xE4, 0xB8, 0xAD, 0x7F, 0x62] 7 5 =
        .ok (([0x61, 0x301, 0x4E2D, 0x7F].map (charColumns utf8)).sum % SIZE_MOD) ∧
      strnwidth utf8 [1] 1 0 = .ok 2 ∧ strnwidth utf8 [0x68, 0x69, 0x21] 2 4 = .ok 2 :=
  strnwidth_sum_of_columns utf8 [0x61, 0xCC, 0x81, 0xE4, 0xB8, 0xAD, 0x7F, 0x62] 7 5
    [0x61, 0x301, 0x4E2D, 0x7F] utf8.init utf8.init [0x68, 0x69, 0x21] 2 4
    (by simp [SIZE_MOD]) (by decide) rfl (by decide) (by decide) rfl rfl
    (by simp [SIZE_MOD]) (by decide)
    (by
      intro b hb
      simp only [List.mem_cons, List.mem_singleton, List.not_mem_nil, or_false] at hb
      rcases hb with rfl | rfl | rfl <;> exact ⟨by decide, by decide, rfl, rfl, rfl⟩)

/-! ## Decoding failures -/

/-- C5 (evaluation of the code): the strings `E4 B8 AD` and `E4 41 41` agree on
their first byte, and with `n = 1` the function `strnwidth` returns 2 for the
first and 1 for the second: `mbrtowc` is given `MB_CUR_MAX` bytes to look at, not
the `n - i` bytes left in the prefix, so the result depends on bytes at index
`>= n`. -/
theorem strnwidth_depends_on_later_bytes :
    [0xE4, 0xB8, 0xAD].take 1 = [0xE4, 0x41, 0x41].take 1 ∧
      strnwidth utf8 [0xE4, 0xB8, 0xAD] 1 0 = .ok 2 ∧
      strnwidth utf8 [0xE4, 0x41, 0x41] 1 0 = .ok 1 :=
  ⟨rfl, rfl, rfl⟩

/-! ## The buffer behind the prompt -/

theorem strnwidthLoop_fuel_mono {L : Locale} (s : List Nat) (n o : Nat) :
    ∀ (fuel fuel' i : Nat) (st : L.State) (w v : Nat), fuel ≤ fuel' →
      strnwidthLoop L s n o fuel i st w = .ok v →
      strnwidthLoop L s n o fuel' i st w = .ok v := by
  intro fuel
  induction fuel with
  | zero => intro fuel' i st w v _ h; cases h
  | succ f ih =>
    intro fuel' i st w v hle h
    obtain ⟨g, rfl⟩ : ∃ g, fuel' = g + 1 := ⟨fuel' - 1, by omega⟩
    rw [strnwidthLoop_succ] at h ⊢
    cases hb : loopBody L s n o i st w with
    | fault => simp [hb] at h
    | done v' => simpa [hb] using h
    | next i' st' w' =>
      simp only [hb] at h ⊢
      exact ih g i' st' w' v (by omega) h

theorem mbrtowc_append_right (L : Locale) (p b : List Nat) (i : Nat) :
    ∀ (limit used : Nat) (st : L.State),
      mbrtowc L (p ++ b) (p.length + i) limit used st = mbrtowc L b i limit used st := by
  intro limit
  induction limit with
  | zero => intro used st; rfl
  | succ l ih =>
    intro used st
    unfold mbrtowc
    rw [Nat.add_assoc, readByte_append_right]
    cases readByte b (i + used) with
    | none => rfl
    | some c =>
      simp only
      cases L.step st c with
      | bad => rfl
      | more st' => exact ih (used + 1) st'
      | char wc st' => rfl

theorem strnlen_append_right (p b : List Nat) (i m : Nat) :
    strnlen (p ++ b) (p.length + i) m = strnlen b i m := by
  unfold strnlen
  have hd : (p ++ b).drop (p.length + i) = b.drop i := by
    rw [List.drop_append]
  have hc : (p.length + i ≤ (p ++ b).length) ↔ (i ≤ b.length) := by
    rw [List.length_append]; omega
  rw [hd]
  by_cases h : i ≤ b.length
  · rw [if_pos h, if_pos (hc.mpr h)]
  · rw [if_neg h, if_neg (fun h' => h (hc.mp h'))]

/-- A width measured from column `P` and the same width measured from column 0
after `P` columns advance alike. -/
theorem widthStep_shift (L : Locale) (wc w P : Nat) (hP : P < SIZE_MOD) :
    size_add P (widthStep L wc w P) = widthStep L wc (size_add P w) 0 := by
  unfold widthStep
  by_cases h : wc = 9
  · rw [if_pos h, if_pos h]
    have e : size_add (size_add (size_add P w) 0) 8 = size_add (size_add w P) 8 := by
      simp only [size_add, SIZE_MOD]; omega
    rw [e]
    generalize hX : size_and_not7 (size_add (size_add w P) 8) = X
    have hXlt : X < SIZE_MOD := by
      rw [← hX]
      unfold size_and_not7
      exact lt_of_le_of_lt Nat.and_le_left (Nat.mod_lt _ (by unfold SIZE_MOD; norm_num))
    simp only [size_add, size_sub, SIZE_MOD] at *
    omega
  · rw [if_neg h, if_neg h]
    generalize (if L.iswcntrl wc then 2 else (max 0 (L.wcwidth wc)).toNat) = c
    simp only [size_add, SIZE_MOD]
    omega

theorem strnwidthLoop_shift {L : Locale} (hL : NulTerminates L) (p b : List Nat)
    (hlen : (p ++ b).length < SIZE_MOD) {k : Nat} (hk : k ≤ b.length) {P : Nat}
    (hP : P < SIZE_MOD) :
    ∀ (fuel i : Nat) (st : L.State) (w : Nat),
      strnwidthLoop L (p ++ b) (p.length + k) 0 fuel (p.length + i) st (size_add P w) =
        (strnwidthLoop L b k P fuel i st w).map (size_add P) := by
  rw [List.length_append] at hlen
  intro fuel
  induction fuel with
  | zero => intro i st w; rfl
  | succ f ih =>
    intro i st w
    rw [strnwidthLoop_succ, strnwidthLoop_succ]
    unfold loopBody
    rw [mbrtowc_append_right, strnlen_append_right]
    by_cases hik : i < k
    · rw [if_pos hik, if_pos (by omega : p.length + i < p.length + k)]
      have hsub : size_sub (p.length + k) (p.length + i) = size_sub k i := by
        rw [size_sub_of_le (by omega) (by omega), size_sub_of_le (by omega) (by omega)]
        omega
      rw [hsub]
      cases hm : mbrtowc L b i L.MB_CUR_MAX 0 st with
      | fault => rfl
      | nul st1 => rfl
      | invalid =>
        simp only
        cases strnlen b i (size_sub k i) with
        | none => rfl
        | some m =>
          simp only [Except.map, size_add, SIZE_MOD]
          congr 1
          omega
      | incomplete st1 =>
        simp only
        cases strnlen b i (size_sub k i) with
        | none => rfl
        | some m =>
          simp only [Except.map, size_add, SIZE_MOD]
          congr 1
          omega
      | char wc len st1 =>
        simp only
        obtain ⟨_, _, hb, _⟩ := mbrtowc_char_bound hL i _ _ _ _ _ _ hm
        rw [size_add_of_lt (by omega : p.length + i + len < SIZE_MOD),
          size_add_of_lt (by omega : i + len < SIZE_MOD), ← widthStep_shift L wc w P hP,
          Nat.add_assoc]
        exact ih (i + len) st1 _
    · rw [if_neg hik, if_neg (by omega : ¬ p.length + i < p.length + k)]
      rfl

/-- C6: for a prompt `p` that decodes without failure and leaves the decoder in
its initial state, a buffer `b` and a cursor position `k <= len(b)`, the column
computed by `cmd_win_redisplay`, `strwidth(p, 0) + strnwidth(b, k, strwidth(p, 0))`,
is the width `strnwidth(p ++ b, len(p) + k, 0)` of the text before the cursor when
prompt and buffer are written as one line from column 0. -/
theorem cursor_col_is_absolute_column (L : Locale) (hL : NulTerminates L) (p b : List Nat)
    (k : Nat) (chars : List Nat) (hp : IsCString p) (hb : IsCString b)
    (hlen : (p ++ b).length < SIZE_MOD) (hk : k ≤ b.length)
    (hdec : decodeFrom L L.init 0 p = some (chars, L.init)) :
    ∃ P w, strwidth L p 0 = .ok P ∧ strnwidth L b k P = .ok w ∧
      cursor_col L p b k = .ok (size_add P w) ∧
      strnwidth L (p ++ b) (p.length + k) 0 = .ok (size_add P w) := by
  have hM : (0 : Nat) < SIZE_MOD := by unfold SIZE_MOD; norm_num
  have hlen' := hlen
  rw [List.length_append] at hlen'
  have hpl : p.length < SIZE_MOD := by omega
  have hbl : b.length < SIZE_MOD := by omega
  have hdec' : decodeFrom L L.init 0 (p.take p.length) = some (chars, L.init) := by
    rw [List.take_length]; exact hdec
  have hcl : chars.length ≤ p.length := decodeFrom_length L _ _ _ _ _ hdec
  -- the width of the prompt
  have hP : strwidth L p 0 = .ok (chars.foldl (fun w wc => widthStep L wc w 0) 0) := by
    have h := strnwidthLoop_beyond hL hp (Nat.le_refl p.length)
      (by unfold SIZE_MAX; omega) 0 (p.length + 2) 0 L.init 0 (Nat.zero_le _) hM
    have h' := strnwidth_of_decodeFrom hpl (Nat.le_refl p.length) 0 hdec'
    unfold strwidth strnwidth
    unfold strnwidth at h'
    rw [← h, h']
  generalize hPdef : chars.foldl (fun w wc => widthStep L wc w 0) 0 = P at hP
  have hPlt : P < SIZE_MOD := by
    rw [← hPdef]; exact foldl_widthStep_lt L 0 chars 0 hM
  -- the width of the buffer before the cursor
  obtain ⟨w, hw⟩ := strnwidthLoop_total hL hb hbl k P (b.length + 2) 0 L.init 0
    (Nat.zero_le _) (by omega)
  have hw' : strnwidth L b k P = .ok w := hw
  refine ⟨P, w, hP, hw', ?_, ?_⟩
  · unfold cursor_col
    rw [hP]
    simp only [hw']
  · have hfuel : (p ++ b).length + 2 =
        chars.length + ((p ++ b).length + 2 - chars.length) := by
      rw [List.length_append]; omega
    unfold strnwidth
    rw [hfuel, strnwidthLoop_over_decoded hlen (p.length + k) 0 L.init b chars p L.init 0 0 _
      hdec (by simp) (by omega), hPdef, Nat.zero_add]
    have hsh := strnwidthLoop_shift hL p b hlen hk hPlt
      ((p ++ b).length + 2 - chars.length) 0 L.init 0
    rw [size_add_zero hPlt] at hsh
    simp only [Nat.add_zero] at hsh
    rw [hsh, strnwidthLoop_fuel_mono b k P (b.length + 2) _ 0 L.init 0 w
      (by rw [List.length_append]; omega) hw]
    rfl

theorem cursor_col_is_absolute_column_witness :
    ∃ P w, strwidth utf8 [0x3E, 0x20] 0 = .ok P ∧ strnwidth utf8 [0x61, 9, 0x62] 2 P = .ok w ∧
      cursor_col utf8 [0x3E, 0x20] [0x61, 9, 0x62] 2 = .ok (size_add P w) ∧
      strnwidth utf8 ([0x3E, 0x20] ++ [0x61, 9, 0x62]) ([0x3E, 0x20].length + 2) 0 =
        .ok (size_add P w) :=
  cursor_col_is_absolute_column utf8 utf8_nulTerminates [0x3E, 0x20] [0x61, 9, 0x62] 2
    [0x3E, 0x20] (by decide) (by decide) (by simp [SIZE_MOD]) (by decide) rfl

/-! ## Library calls that succeed -/

theorem CHECK_ok {E : Env} (hE : E.NoFailure) (c : Call) (t : Screen) :
    CHECK E c t = .ok (record c (effect c t)) := by
  simp [CHECK, hE _ _]

theorem call_ok {E : Env} (hE : E.NoFailure) (c : Call) (t : Screen) :
    call E c t = record c (effect c t) := by
  simp [call, hE _ _]

theorem callsBetween_append (t t' : Screen) (l : List Call) (h : t'.trace = t.trace ++ l) :
    callsBetween t t' = l := by
  unfold callsBetween
  rw [h, List.drop_left]

theorem cursor_col_total {L : Locale} (hL : NulTerminates L) {t : Screen}
    (ht : t.StringsOk) :
    ∃ c, cursor_col L t.rl_display_prompt t.rl_line_buffer t.rl_point = .ok c := by
  obtain ⟨hp, hb, hpl, hbl⟩ := ht
  obtain ⟨P, hP⟩ := strnwidthLoop_total hL hp hpl SIZE_MAX 0 (t.rl_display_prompt.length + 2)
    0 L.init 0 (Nat.zero_le _) (by omega)
  obtain ⟨w, hw⟩ := strnwidthLoop_total hL hb hbl t.rl_point P (t.rl_line_buffer.length + 2)
    0 L.init 0 (Nat.zero_le _) (by omega)
  have hP' : strwidth L t.rl_display_prompt 0 = .ok P := hP
  have hw' : strnwidth L t.rl_line_buffer t.rl_point P = .ok w := hw
  exact ⟨size_add P w, by unfold cursor_col; rw [hP']; simp only [hw']⟩

/-- The state after `msg_win_redisplay` when every call succeeds. -/
theorem msg_win_redisplay_ok {E : Env} (hE : E.NoFailure) (b : Bool) (t : Screen) :
    msg_win_redisplay E b t = .ok { t with trace := t.trace ++
      [.werase .msg_win, .mvwaddstr .msg_win 0 0 (t.msg_win_str.getD []),
        if b then .wnoutrefresh .msg_win else .wrefresh .msg_win] } := by
  cases b <;>
    simp [msg_win_redisplay, CHECK_ok hE, bind, Except.bind, record, effect]

/-- The state after `cmd_win_redisplay` when every call succeeds. -/
theorem cmd_win_redisplay_ok {L : Locale} {E : Env} (hE : E.NoFailure) (b : Bool)
    (t : Screen) {c : Nat}
    (hc : cursor_col L t.rl_display_prompt t.rl_line_buffer t.rl_point = .ok c) :
    cmd_win_redisplay L E b t = .ok { t with trace := t.trace ++
      ([.werase .cmd_win, .mvwprintw .cmd_win 0 0 t.rl_display_prompt t.rl_line_buffer] ++
        (if c ≥ size_of_int t.COLS then [.curs_set 0]
          else [.wmove .cmd_win 0 (int_of_size c), .curs_set 2]) ++
        [if b then .wnoutrefresh .cmd_win else .wrefresh .cmd_win]) } := by
  unfold cmd_win_redisplay
  rw [hc]
  by_cases h : c ≥ size_of_int t.COLS <;> cases b <;>
    simp [h, CHECK_ok hE, call_ok hE, bind, Except.bind, record, effect]

/-- The state after `resize` on a terminal of at least 3 rows when every call
succeeds. -/
theorem resize_ok_large {L : Locale} {E : Env} (hE : E.NoFailure) (t : Screen) {c : Nat}
    (hc : cursor_col L t.rl_display_prompt t.rl_line_buffer t.rl_point = .ok c)
    (h3 : 3 ≤ t.LINES) :
    resize L E t = .ok { t with
      msg_win := { t.msg_win with lines := t.LINES - 2, cols := t.COLS }
      sep_win := ⟨1, t.COLS, t.LINES - 2, 0⟩
      cmd_win := ⟨1, t.COLS, t.LINES - 1, 0⟩
      trace := t.trace ++
        ([.wresize .msg_win (t.LINES - 2) t.COLS, .wresize .sep_win 1 t.COLS,
          .wresize .cmd_win 1 t.COLS, .mvwin .sep_win (t.LINES - 2) 0,
          .mvwin .cmd_win (t.LINES - 1) 0] ++
        [.werase .msg_win, .mvwaddstr .msg_win 0 0 (t.msg_win_str.getD []),
          .wnoutrefresh .msg_win, .wnoutrefresh .sep_win,
          .werase .cmd_win, .mvwprintw .cmd_win 0 0 t.rl_display_prompt t.rl_line_buffer] ++
        (if c ≥ size_of_int t.COLS then [.curs_set 0]
          else [.wmove .cmd_win 0 (int_of_size c), .curs_set 2]) ++
        [.wnoutrefresh .cmd_win, .doupdate]) } := by
  by_cases h : c ≥ size_of_int t.COLS <;>
    simp [resize, h3, h, CHECK_ok hE, call_ok hE, msg_win_redisplay_ok hE, cmd_win_redisplay,
      hc, bind, Except.bind, record, effect, Screen.setWin, Screen.win]

/-- The state after `resize` on a terminal of fewer than 3 rows when every call
succeeds. -/
theorem resize_ok_small {L : Locale} {E : Env} (hE : E.NoFailure) (t : Screen) {c : Nat}
    (hc : cursor_col L t.rl_display_prompt t.rl_line_buffer t.rl_point = .ok c)
    (h3 : t.LINES < 3) :
    resize L E t = .ok { t with
      trace := t.trace ++
        ([.werase .msg_win, .mvwaddstr .msg_win 0 0 (t.msg_win_str.getD []),
          .wnoutrefresh .msg_win, .wnoutrefresh .sep_win,
          .werase .cmd_win, .mvwprintw .cmd_win 0 0 t.rl_display_prompt t.rl_line_buffer] ++
        (if c ≥ size_of_int t.COLS then [.curs_set 0]
          else [.wmove .cmd_win 0 (int_of_size c), .curs_set 2]) ++
        [.wnoutrefresh .cmd_win, .doupdate]) } := by
  have h3' : ¬ (3 ≤ t.LINES) := by omega
  by_cases h : c ≥ size_of_int t.COLS <;>
    simp [resize, h3', h, CHECK_ok hE, call_ok hE, msg_win_redisplay_ok hE, cmd_win_redisplay,
      hc, bind, Except.bind, record, effect, Screen.setWin, Screen.win]

/-- The windows after `init_ncurses` when every call succeeds. -/
theorem init_ncurses_ok {E : Env} (hE : E.NoFailure) (t : Screen) :
    ∃ t', init_ncurses E t = .ok t' ∧ t'.LINES = t.LINES ∧ t'.COLS = t.COLS ∧
      t'.msg_win = (if 3 ≤ t.LINES then ⟨t.LINES - 2, t.COLS, 0, 0⟩ else ⟨1, t.COLS, 0, 0⟩) ∧
      t'.sep_win = (if 3 ≤ t.LINES then ⟨1, t.COLS, t.LINES - 2, 0⟩
        else ⟨1, t.COLS, 0, 0⟩) ∧
      t'.cmd_win = (if 3 ≤ t.LINES then ⟨1, t.COLS, t.LINES - 1, 0⟩
        else ⟨1, t.COLS, 0, 0⟩) := by
  by_cases h3 : 3 ≤ t.LINES <;> cases hcol : E.has_colors <;>
    simp [init_ncurses, h3, hcol, hE _ _, CHECK_ok hE, call_ok hE, bind, Except.bind, record,
      effect, Screen.setWin, Screen.win]

theorem size_of_int_of_nonneg {x : Int} (h0 : 0 ≤ x) (h1 : x ≤ INT_MAX) :
    size_of_int x = x.toNat := by
  unfold size_of_int
  have : x % (SIZE_MOD : Int) = x := by
    apply Int.emod_eq_of_lt h0
    unfold INT_MAX at h1
    unfold SIZE_MOD
    push_cast
    omega
  rw [this]

theorem int_of_size_of_small {c : Nat} (h : (c : Int) ≤ INT_MAX) : int_of_size c = c := by
  unfold INT_MAX at h
  have hc : c < 2 ^ 31 := by omega
  unfold int_of_size
  have : c % 2 ^ 32 = c := Nat.mod_eq_of_lt (by omega)
  rw [this, if_pos hc]

/-! ## The cursor of the input pane -/

theorem CHECK_checked {E : Env} (hE : E.ChecksSucceed) (c : Call) (t : Screen)
    (hc : c.ignored = false) : CHECK E c t = .ok (record c (effect c t)) := by
  simp [CHECK, hE _ _ hc]

theorem call_without_effect (E : Env) (c : Call) (t : Screen) (h : effect c t = t) :
    call E c t = record c t := by
  unfold call
  rw [h, ite_self]

theorem checksSucceed_of_noFailure {E : Env} (hE : E.NoFailure) : E.ChecksSucceed :=
  fun h c _ => hE h c

theorem clippingEnv_checksSucceed : clippingEnv.ChecksSucceed :=
  fun _ _ h => h

theorem clippingEnv_not_noFailure : ¬ clippingEnv.NoFailure := by
  intro h
  have := h [] (.curs_set 0)
  simp [clippingEnv, Call.ignored] at this

/-- The state after `cmd_win_redisplay` when every call whose result is tested
succeeds, whatever `mvwprintw` and `curs_set` return. -/
theorem cmd_win_redisplay_checked {L : Locale} {E : Env} (hE : E.ChecksSucceed) (b : Bool)
    (t : Screen) {c : Nat}
    (hc : cursor_col L t.rl_display_prompt t.rl_line_buffer t.rl_point = .ok c) :
    cmd_win_redisplay L E b t = .ok { t with trace := t.trace ++
      ([.werase .cmd_win, .mvwprintw .cmd_win 0 0 t.rl_display_prompt t.rl_line_buffer] ++
        (if c ≥ size_of_int t.COLS then [.curs_set 0]
          else [.wmove .cmd_win 0 (int_of_size c), .curs_set 2]) ++
        [if b then .wnoutrefresh .cmd_win else .wrefresh .cmd_win]) } := by
  unfold cmd_win_redisplay
  rw [hc]
  by_cases h : c ≥ size_of_int t.COLS <;> cases b <;>
    simp [h, CHECK_checked hE, call_without_effect E, Call.ignored, bind, Except.bind,
      record, effect]

/-- C7: in `cmd_win_redisplay`, with cursor column `c` and `0 < COLS`, when the
calls whose result is tested succeed (`mvwprintw` and `curs_set`, whose results
are ignored, may fail): if `c >= COLS` the calls made are erase, write,
`curs_set(0)` and the refresh, so the cursor is hidden and no `wmove` is issued;
otherwise they are erase, write, `wmove(cmd_win, 0, c)`, `curs_set(2)` and the
refresh. In particular `c = COLS - 1` moves the cursor to column `COLS - 1` and
shows it, and `c = COLS` hides it. -/
theorem cursor_hidden_or_moved (L : Locale) (E : Env) (t : Screen) (b : Bool) (c : Nat)
    (hE : E.ChecksSucceed)
    (hc : cursor_col L t.rl_display_prompt t.rl_line_buffer t.rl_point = .ok c)
    (hpos : 0 < t.COLS) (hmax : t.COLS ≤ INT_MAX) :
    ∃ t', cmd_win_redisplay L E b t = .ok t' ∧
      (t.COLS ≤ (c : Int) → callsBetween t t' =
        [.werase .cmd_win, .mvwprintw .cmd_win 0 0 t.rl_display_prompt t.rl_line_buffer,
          .curs_set 0, if b then .wnoutrefresh .cmd_win else .wrefresh .cmd_win]) ∧
      ((c : Int) < t.COLS → callsBetween t t' =
        [.werase .cmd_win, .mvwprintw .cmd_win 0 0 t.rl_display_prompt t.rl_line_buffer,
          .wmove .cmd_win 0 c, .curs_set 2,
          if b then .wnoutrefresh .cmd_win else .wrefresh .cmd_win]) ∧
      ((c : Int) = t.COLS - 1 →
        Call.wmove .cmd_win 0 (t.COLS - 1) ∈ callsBetween t t' ∧
        Call.curs_set 2 ∈ callsBetween t t' ∧ Call.curs_set 0 ∉ callsBetween t t') ∧
      ((c : Int) = t.COLS →
        Call.curs_set 0 ∈ callsBetween t t' ∧ Call.curs_set 2 ∉ callsBetween t t' ∧
        ∀ w y x, Call.wmove w y x ∉ callsBetween t t') := by
  have hsz : size_of_int t.COLS = t.COLS.toNat := size_of_int_of_nonneg (by omega) hmax
  have hhide : t.COLS ≤ (c : Int) → callsBetween t
      { t with trace := t.trace ++
        ([.werase .cmd_win, .mvwprintw .cmd_win 0 0 t.rl_display_prompt t.rl_line_buffer] ++
          (if c ≥ size_of_int t.COLS then [Call.curs_set 0]
            else [.wmove .cmd_win 0 (int_of_size c), .curs_set 2]) ++
          [if b then .wnoutrefresh .cmd_win else .wrefresh .cmd_win]) } =
      [.werase .cmd_win, .mvwprintw .cmd_win 0 0 t.rl_display_prompt t.rl_line_buffer,
        .curs_set 0, if b then .wnoutrefresh .cmd_win else .wrefresh .cmd_win] := by
    intro h
    rw [callsBetween_append _ _ _ rfl, if_pos (by rw [hsz]; omega)]
    rfl
  have hshow : (c : Int) < t.COLS → callsBetween t
      { t with trace := t.trace ++
        ([.werase .cmd_win, .mvwprintw .cmd_win 0 0 t.rl_display_prompt t.rl_line_buffer] ++
          (if c ≥ size_of_int t.COLS then [Call.curs_set 0]
            else [.wmove .cmd_win 0 (int_of_size c), .curs_set 2]) ++
          [if b then .wnoutrefresh .cmd_win else .wrefresh .cmd_win]) } =
      [.werase .cmd_win, .mvwprintw .cmd_win 0 0 t.rl_display_prompt t.rl_line_buffer,
        .wmove .cmd_win 0 c, .curs_set 2,
        if b then .wnoutrefresh .cmd_win else .wrefresh .cmd_win] := by
    intro h
    rw [callsBetween_append _ _ _ rfl, if_neg (by rw [hsz]; omega),
      int_of_size_of_small (by omega)]
    rfl
  refine ⟨_, cmd_win_redisplay_checked hE b t hc, hhide, hshow, ?_, ?_⟩
  · intro h
    rw [hshow (by omega), h]
    cases b <;> simp
  · intro h
    rw [hhide (by omega)]
    cases b <;> simp

theorem cursor_hidden_or_moved_witness :
    (∃ t', cmd_win_redisplay utf8 clippingEnv false { demoScreen with COLS := 8 } = .ok t' ∧
      ((8 : Int) ≤ ((8 : Nat) : Int) → callsBetween { demoScreen with COLS := 8 } t' =
        [.werase .cmd_win,
          .mvwprintw .cmd_win 0 0 demoScreen.rl_display_prompt demoScreen.rl_line_buffer,
          .curs_set 0, if false then .wnoutrefresh .cmd_win else .wrefresh .cmd_win]) ∧
      (((8 : Nat) : Int) < (8 : Int) → callsBetween { demoScreen with COLS := 8 } t' =
        [.werase .cmd_win,
          .mvwprintw .cmd_win 0 0 demoScreen.rl_display_prompt demoScreen.rl_line_buffer,
          .wmove .cmd_win 0 (8 : Nat), .curs_set 2,
          if false then .wnoutrefresh .cmd_win else .wrefresh .cmd_win]) ∧
      (((8 : Nat) : Int) = (8 : Int) - 1 →
        Call.wmove .cmd_win 0 ((8 : Int) - 1) ∈ callsBetween { demoScreen with COLS := 8 } t' ∧
        Call.curs_set 2 ∈ callsBetween { demoScreen with COLS := 8 } t' ∧
        Call.curs_set 0 ∉ callsBetween { demoScreen with COLS := 8 } t') ∧
      (((8 : Nat) : Int) = (8 : Int) →
        Call.curs_set 0 ∈ callsBetween { demoScreen with COLS := 8 } t' ∧
        Call.curs_set 2 ∉ callsBetween { demoScreen with COLS := 8 } t' ∧
        ∀ w y x, Call.wmove w y x ∉ callsBetween { demoScreen with COLS := 8 } t')) ∧
    (∃ t', cmd_win_redisplay utf8 clippingEnv true { demoScreen with COLS := 9 } = .ok t' ∧
      ((9 : Int) ≤ ((8 : Nat) : Int) → callsBetween { demoScreen with COLS := 9 } t' =
        [.werase .cmd_win,
          .mvwprintw .cmd_win 0 0 demoScreen.rl_display_prompt demoScreen.rl_line_buffer,
          .curs_set 0, if true then .wnoutrefresh .cmd_win else .wrefresh .cmd_win]) ∧
      (((8 : Nat) : Int) < (9 : Int) → callsBetween { demoScreen with COLS := 9 } t' =
        [.werase .cmd_win,
          .mvwprintw .cmd_win 0 0 demoScreen.rl_display_prompt demoScreen.rl_line_buffer,
          .wmove .cmd_win 0 (8 : Nat), .curs_set 2,
          if true then .wnoutrefresh .cmd_win else .wrefresh .cmd_win]) ∧
      (((8 : Nat) : Int) = (9 : Int) - 1 →
        Call.wmove .cmd_win 0 ((9 : Int) - 1) ∈ callsBetween { demoScreen with COLS := 9 } t' ∧
        Call.curs_set 2 ∈ callsBetween { demoScreen with COLS := 9 } t' ∧
        Call.curs_set 0 ∉ callsBetween { demoScreen with COLS := 9 } t') ∧
      (((8 : Nat) : Int) = (9 : Int) →
        Call.curs_set 0 ∈ callsBetween { demoScreen with COLS := 9 } t' ∧
        Call.curs_set 2 ∉ callsBetween { demoScreen with COLS := 9 } t' ∧
        ∀ w y x, Call.wmove w y x ∉ callsBetween { demoScreen with COLS := 9 } t')) :=
  ⟨cursor_hidden_or_moved utf8 clippingEnv { demoScreen with COLS := 8 } false 8
      (fun _ _ h => h) rfl (by decide) (by decide),
    cursor_hidden_or_moved utf8 clippingEnv { demoScreen with COLS := 9 } true 8
      (fun _ _ h => h) rfl (by decide) (by decide)⟩

/-! ## Pane geometry -/

theorem demoScreen_stringsOk (R C : Int) :
    ({ demoScreen with LINES := R, COLS := C } : Screen).StringsOk :=
  ⟨(by decide : IsCString [0x3E, 0x20]), (by decide : IsCString [0x61, 9, 0x62]),
    by simp [demoScreen, SIZE_MOD], by simp [demoScreen, SIZE_MOD]⟩

/-- C8: after `resize` with `LINES = R >= 3` and `COLS = C`, all library calls
succeeding and the scrollback pane at the origin `(0, 0)` where `init_ncurses`
creates it for every terminal size, the scrollback pane has `R - 2` rows and `C`
columns at `(0, 0)`, the separator pane 1 row and `C` columns at `(R - 2, 0)`, the
input pane 1 row and `C` columns at `(R - 1, 0)`; the row counts sum to `R`, and
every screen row `0 .. R - 1` lies in exactly one pane. `init_ncurses` produces the
same geometry when `R >= 3`. -/
theorem resize_geometry (L : Locale) (E : Env) (t t0 : Screen) (hE : E.NoFailure)
    (hL : NulTerminates L) (hs : t.StringsOk) (h3 : 3 ≤ t.LINES)
    (horigin : t.msg_win.begy = 0 ∧ t.msg_win.begx = 0) (h30 : 3 ≤ t0.LINES) :
    (∃ t', resize L E t = .ok t' ∧
      t'.msg_win = ⟨t.LINES - 2, t.COLS, 0, 0⟩ ∧
      t'.sep_win = ⟨1, t.COLS, t.LINES - 2, 0⟩ ∧
      t'.cmd_win = ⟨1, t.COLS, t.LINES - 1, 0⟩ ∧
      t'.msg_win.lines + t'.sep_win.lines + t'.cmd_win.lines = t.LINES ∧
      (∀ r : Int, (0 ≤ r ∧ r < t.LINES) ↔
        (t'.msg_win.hasRow r ∨ t'.sep_win.hasRow r ∨ t'.cmd_win.hasRow r)) ∧
      (∀ r : Int, ¬ (t'.msg_win.hasRow r ∧ t'.sep_win.hasRow r) ∧
        ¬ (t'.msg_win.hasRow r ∧ t'.cmd_win.hasRow r) ∧
        ¬ (t'.sep_win.hasRow r ∧ t'.cmd_win.hasRow r))) ∧
    (∃ t1, init_ncurses E t0 = .ok t1 ∧
      t1.msg_win = ⟨t0.LINES - 2, t0.COLS, 0, 0⟩ ∧
      t1.sep_win = ⟨1, t0.COLS, t0.LINES - 2, 0⟩ ∧
      t1.cmd_win = ⟨1, t0.COLS, t0.LINES - 1, 0⟩) ∧
    (∀ s0 : Screen, ∃ s1, init_ncurses E s0 = .ok s1 ∧
      s1.msg_win.begy = 0 ∧ s1.msg_win.begx = 0) := by
  obtain ⟨c, hc⟩ := cursor_col_total hL hs
  refine ⟨⟨_, resize_ok_large hE t hc h3, ?_, rfl, rfl, ?_, ?_, ?_⟩, ?_, ?_⟩
  · obtain ⟨hy, hx⟩ := horigin
    cases hm : t.msg_win with
    | mk l c y x =>
      rw [hm] at hy hx
      simp only at hy hx
      subst hy hx
      rfl
  · simp only
    omega
  · intro r
    simp only [Geometry.hasRow, horigin.1]
    omega
  · intro r
    simp only [Geometry.hasRow, horigin.1]
    omega
  · obtain ⟨t1, h1, _, _, hm, hsep, hcmd⟩ := init_ncurses_ok hE t0
    rw [if_pos h30] at hm hsep hcmd
    exact ⟨t1, h1, hm, hsep, hcmd⟩
  · intro s0
    obtain ⟨s1, h1, _, _, hm, _, _⟩ := init_ncurses_ok hE s0
    refine ⟨s1, h1, ?_, ?_⟩ <;> rw [hm] <;> split <;> rfl

theorem resize_geometry_witness :
    (∃ t', resize utf8 quietEnv { demoScreen with LINES := 30, COLS := 100 } = .ok t' ∧
      t'.msg_win = ⟨30 - 2, 100, 0, 0⟩ ∧
      t'.sep_win = ⟨1, 100, 30 - 2, 0⟩ ∧
      t'.cmd_win = ⟨1, 100, 30 - 1, 0⟩ ∧
      t'.msg_win.lines + t'.sep_win.lines + t'.cmd_win.lines = 30 ∧
      (∀ r : Int, (0 ≤ r ∧ r < 30) ↔
        (t'.msg_win.hasRow r ∨ t'.sep_win.hasRow r ∨ t'.cmd_win.hasRow r)) ∧
      (∀ r : Int, ¬ (t'.msg_win.hasRow r ∧ t'.sep_win.hasRow r) ∧
        ¬ (t'.msg_win.hasRow r ∧ t'.cmd_win.hasRow r) ∧
        ¬ (t'.sep_win.hasRow r ∧ t'.cmd_win.hasRow r))) ∧
    (∃ t1, init_ncurses quietEnv demoScreen = .ok t1 ∧
      t1.msg_win = ⟨24 - 2, 80, 0, 0⟩ ∧
      t1.sep_win = ⟨1, 80, 24 - 2, 0⟩ ∧
      t1.cmd_win = ⟨1, 80, 24 - 1, 0⟩) ∧
    (∀ s0 : Screen, ∃ s1, init_ncurses quietEnv s0 = .ok s1 ∧
      s1.msg_win.begy = 0 ∧ s1.msg_win.begx = 0) :=
  resize_geometry utf8 quietEnv { demoScreen with LINES := 30, COLS := 100 } demoScreen
    (fun _ _ => rfl) utf8_nulTerminates (demoScreen_stringsOk 30 100) (by decide)
    ⟨rfl, rfl⟩ (by decide)

/-- C9 (as stated, refuted): on a terminal of 24 rows laid out by `init_ncurses`
and then shrunk to `LINES = 2`, `resize` succeeds and the scrollback pane still
has 22 rows, the separator pane is still at row 22 and the input pane at row 23:
the panes are not collapsed to 1 row at the origin. -/
theorem resize_small_not_collapsed :
    ∃ t', resize utf8 quietEnv { demoScreen with LINES := 2 } = .ok t' ∧
      t'.msg_win.lines = 22 ∧ t'.msg_win.lines ≠ 1 ∧
      t'.sep_win.begy = 22 ∧ t'.cmd_win.begy = 23 :=
  ⟨_, rfl, rfl, by decide, rfl, rfl⟩

/-- C9 (amended): when `LINES < 3`, `resize` with all library calls succeeding
makes no `wresize` and no `mvwin` call and leaves the geometry of the three panes
as it was before the call; the collapse to 1 row and `COLS` columns at the origin
`(0, 0)` is what `init_ncurses` does when `LINES < 3`. -/
theorem resize_small_keeps_geometry (L : Locale) (E : Env) (t t0 : Screen)
    (hE : E.NoFailure) (hL : NulTerminates L) (hs : t.StringsOk) (h3 : t.LINES < 3)
    (h30 : t0.LINES < 3) :
    (∃ t', resize L E t = .ok t' ∧
      t'.msg_win = t.msg_win ∧ t'.sep_win = t.sep_win ∧ t'.cmd_win = t.cmd_win ∧
      (∀ w l c, Call.wresize w l c ∉ callsBetween t t') ∧
      (∀ w y x, Call.mvwin w y x ∉ callsBetween t t')) ∧
    (∃ t1, init_ncurses E t0 = .ok t1 ∧
      t1.msg_win = ⟨1, t0.COLS, 0, 0⟩ ∧ t1.sep_win = ⟨1, t0.COLS, 0, 0⟩ ∧
      t1.cmd_win = ⟨1, t0.COLS, 0, 0⟩) := by
  obtain ⟨c, hc⟩ := cursor_col_total hL hs
  refine ⟨⟨_, resize_ok_small hE t hc h3, rfl, rfl, rfl, ?_, ?_⟩, ?_⟩
  · intro w l c'
    rw [callsBetween_append _ _ _ rfl]
    by_cases h : c ≥ size_of_int t.COLS <;> simp [h]
  · intro w y x
    rw [callsBetween_append _ _ _ rfl]
    by_cases h : c ≥ size_of_int t.COLS <;> simp [h]
  · obtain ⟨t1, h1, _, _, hm, hsep, hcmd⟩ := init_ncurses_ok hE t0
    rw [if_neg (by omega)] at hm hsep hcmd
    exact ⟨t1, h1, hm, hsep, hcmd⟩

theorem resize_small_keeps_geometry_witness :
    (∃ t', resize utf8 quietEnv { demoScreen with LINES := 2 } = .ok t' ∧
      t'.msg_win = ({ demoScreen with LINES := 2 } : Screen).msg_win ∧
      t'.sep_win = ({ demoScreen with LINES := 2 } : Screen).sep_win ∧
      t'.cmd_win = ({ demoScreen with LINES := 2 } : Screen).cmd_win ∧
      (∀ w l c, Call.wresize w l c ∉ callsBetween { demoScreen with LINES := 2 } t') ∧
      (∀ w y x, Call.mvwin w y x ∉ callsBetween { demoScreen with LINES := 2 } t')) ∧
    (∃ t1, init_ncurses quietEnv { demoScreen with LINES := 1 } = .ok t1 ∧
      t1.msg_win = ⟨1, 80, 0, 0⟩ ∧ t1.sep_win = ⟨1, 80, 0, 0⟩ ∧
      t1.cmd_win = ⟨1, 80, 0, 0⟩) :=
  resize_small_keeps_geometry utf8 quietEnv { demoScreen with LINES := 2 }
    { demoScreen with LINES := 1 } (fun _ _ => rfl) utf8_nulTerminates
    (demoScreen_stringsOk 2 80) (by decide) (by decide)

/-! ## Batched refreshes -/

/-- C10: for every terminal size, with all library calls succeeding, the calls
made by `resize` are the resizing calls (only when `LINES >= 3`), then erase,
write and `wnoutrefresh` of the scrollback pane, `wnoutrefresh` of the separator
pane, erase, write, cursor placement and `wnoutrefresh` of the input pane, and a
final `doupdate`: no `wrefresh` of any pane occurs, `doupdate` occurs exactly once
and is the last call. `msg_win_redisplay(b)` and `cmd_win_redisplay(b)` end with
`wnoutrefresh` when `b` is true and with `wrefresh` when `b` is false. -/
theorem resize_batches_refreshes (L : Locale) (E : Env) (t : Screen) (b : Bool)
    (hE : E.NoFailure) (hL : NulTerminates L) (hs : t.StringsOk) :
    (∃ t' c, resize L E t = .ok t' ∧
      cursor_col L t.rl_display_prompt t.rl_line_buffer t.rl_point = .ok c ∧
      callsBetween t t' =
        (if 3 ≤ t.LINES then
          [.wresize .msg_win (t.LINES - 2) t.COLS, .wresize .sep_win 1 t.COLS,
            .wresize .cmd_win 1 t.COLS, .mvwin .sep_win (t.LINES - 2) 0,
            .mvwin .cmd_win (t.LINES - 1) 0]
          else []) ++
        [.werase .msg_win, .mvwaddstr .msg_win 0 0 (t.msg_win_str.getD []),
          .wnoutrefresh .msg_win, .wnoutrefresh .sep_win,
          .werase .cmd_win, .mvwprintw .cmd_win 0 0 t.rl_display_prompt t.rl_line_buffer] ++
        (if c ≥ size_of_int t.COLS then [.curs_set 0]
          else [.wmove .cmd_win 0 (int_of_size c), .curs_set 2]) ++
        [.wnoutrefresh .cmd_win, .doupdate] ∧
      (∀ w, Call.wrefresh w ∉ callsBetween t t') ∧
      (callsBetween t t').count .doupdate = 1 ∧
      (callsBetween t t').getLast? = some .doupdate) ∧
    (∃ t1, msg_win_redisplay E b t = .ok t1 ∧
      callsBetween t t1 =
        [.werase .msg_win, .mvwaddstr .msg_win 0 0 (t.msg_win_str.getD []),
          if b then .wnoutrefresh .msg_win else .wrefresh .msg_win]) ∧
    (∃ t2, cmd_win_redisplay L E b t = .ok t2 ∧
      (callsBetween t t2).getLast? =
        some (if b then .wnoutrefresh .cmd_win else .wrefresh .cmd_win) ∧
      (b = true → ∀ w, Call.wrefresh w ∉ callsBetween t t2) ∧
      (b = false → ∀ w, Call.wnoutrefresh w ∉ callsBetween t t2)) := by
  obtain ⟨c, hc⟩ := cursor_col_total hL hs
  refine ⟨?_, ⟨_, msg_win_redisplay_ok hE b t, callsBetween_append _ _ _ rfl⟩,
    ⟨_, cmd_win_redisplay_ok hE b t hc, ?_, ?_, ?_⟩⟩
  · by_cases h3 : 3 ≤ t.LINES
    · refine ⟨_, c, resize_ok_large hE t hc h3, hc, ?_, ?_, ?_, ?_⟩
      · rw [callsBetween_append _ _ _ rfl, if_pos h3]
      · intro w
        rw [callsBetween_append _ _ _ rfl]
        by_cases h : c ≥ size_of_int t.COLS <;> simp [h]
      · rw [callsBetween_append _ _ _ rfl]
        by_cases h : c ≥ size_of_int t.COLS <;> simp [h]
      · rw [callsBetween_append _ _ _ rfl]
        by_cases h : c ≥ size_of_int t.COLS <;> simp [h]
    · refine ⟨_, c, resize_ok_small hE t hc (by omega), hc, ?_, ?_, ?_, ?_⟩
      · rw [callsBetween_append _ _ _ rfl, if_neg h3]
        rfl
      · intro w
        rw [callsBetween_append _ _ _ rfl]
        by_cases h : c ≥ size_of_int t.COLS <;> simp [h]
      · rw [callsBetween_append _ _ _ rfl]
        by_cases h : c ≥ size_of_int t.COLS <;> simp [h]
      · rw [callsBetween_append _ _ _ rfl]
        by_cases h : c ≥ size_of_int t.COLS <;> simp [h]
  · rw [callsBetween_append _ _ _ rfl]
    by_cases h : c ≥ size_of_int t.COLS <;> simp [h]
  · intro hb w
    rw [callsBetween_append _ _ _ rfl]
    by_cases h : c ≥ size_of_int t.COLS <;> simp [h, hb]
  · intro hb w
    rw [callsBetween_append _ _ _ rfl]
    by_cases h : c ≥ size_of_int t.COLS <;> simp [h, hb]

theorem resize_batches_refreshes_witness :
    (∃ t' c, resize utf8 quietEnv demoScreen = .ok t' ∧
      cursor_col utf8 demoScreen.rl_display_prompt demoScreen.rl_line_buffer
        demoScreen.rl_point = .ok c ∧
      callsBetween demoScreen t' =
        (if 3 ≤ demoScreen.LINES then
          [.wresize .msg_win (demoScreen.LINES - 2) demoScreen.COLS,
            .wresize .sep_win 1 demoScreen.COLS,
            .wresize .cmd_win 1 demoScreen.COLS, .mvwin .sep_win (demoScreen.LINES - 2) 0,
            .mvwin .cmd_win (demoScreen.LINES - 1) 0]
          else []) ++
        [.werase .msg_win, .mvwaddstr .msg_win 0 0 (demoScreen.msg_win_str.getD []),
          .wnoutrefresh .msg_win, .wnoutrefresh .sep_win,
          .werase .cmd_win,
          .mvwprintw .cmd_win 0 0 demoScreen.rl_display_prompt demoScreen.rl_line_buffer] ++
        (if c ≥ size_of_int demoScreen.COLS then [.curs_set 0]
          else [.wmove .cmd_win 0 (int_of_size c), .curs_set 2]) ++
        [.wnoutrefresh .cmd_win, .doupdate] ∧
      (∀ w, Call.wrefresh w ∉ callsBetween demoScreen t') ∧
      (callsBetween demoScreen t').count .doupdate = 1 ∧
      (callsBetween demoScreen t').getLast? = some .doupdate) ∧
    (∃ t1, msg_win_redisplay quietEnv true demoScreen = .ok t1 ∧
      callsBetween demoScreen t1 =
        [.werase .msg_win, .mvwaddstr .msg_win 0 0 (demoScreen.msg_win_str.getD []),
          if true then .wnoutrefresh .msg_win else .wrefresh .msg_win]) ∧
    (∃ t2, cmd_win_redisplay utf8 quietEnv true demoScreen = .ok t2 ∧
      (callsBetween demoScreen t2).getLast? =
        some (if true then .wnoutrefresh .cmd_win else .wrefresh .cmd_win) ∧
      (true = true → ∀ w, Call.wrefresh w ∉ callsBetween demoScreen t2) ∧
      (true = false → ∀ w, Call.wnoutrefresh w ∉ callsBetween demoScreen t2)) :=
  resize_batches_refreshes utf8 quietEnv demoScreen true (fun _ _ => rfl)
    utf8_nulTerminates (demoScreen_stringsOk 24 80)

/-! ## The fallback after a decoding failure in `ncurses.c` -/

/-- After a decoding failure at index `i < n` the loop of `src/rlncurses.c` ends
with the bytes from index `i` up to the bound counted. -/
theorem loopBody_failure {L : Locale} {s : List Nat} (hs : IsCString s) {n i : Nat}
    (hn : n ≤ SIZE_MAX) (hi : i < n) (hil : i ≤ s.length) (o : Nat) {st : L.State} (w : Nat)
    (hfail : mbrtowc L s i L.MB_CUR_MAX 0 st = .invalid ∨
      ∃ st', mbrtowc L s i L.MB_CUR_MAX 0 st = .incomplete st') :
    loopBody L s n o i st w = .done (size_add w (min (s.length - i) (n - i))) := by
  have hsl := strnlen_cstring hs hil (size_sub n i)
  rw [size_sub_of_le (by omega) (lt_of_le_of_lt hn SIZE_MAX_lt)] at hsl
  unfold loopBody
  rw [if_pos hi]
  rcases hfail with h | ⟨st', h⟩ <;>
    · rw [h]
      simp only
      rw [size_sub_of_le (by omega) (lt_of_le_of_lt hn SIZE_MAX_lt), hsl]

/-- After a decoding failure at index `i < n` the loop of `src/ncurses.c` ends
with the bytes from the start of the string counted, at most `n - i` of them. -/
theorem ncurses_loopBody_failure {L : Locale} {s : List Nat} (hs : IsCString s) {n i : Nat}
    (hn : n ≤ SIZE_MAX) (hi : i < n) (o : Nat) {st : L.State} (w : Nat)
    (hfail : mbrtowc L s i L.MB_CUR_MAX 0 st = .invalid ∨
      ∃ st', mbrtowc L s i L.MB_CUR_MAX 0 st = .incomplete st') :
    Ncurses.loopBody L s n o i st w = .done (size_add w (min s.length (n - i))) := by
  have hsl := strnlen_cstring hs (Nat.zero_le s.length) (size_sub n i)
  rw [size_sub_of_le (by omega) (lt_of_le_of_lt hn SIZE_MAX_lt), Nat.sub_zero] at hsl
  unfold Ncurses.loopBody
  rw [if_pos hi]
  rcases hfail with h | ⟨st', h⟩ <;>
    · rw [h]
      simp only
      rw [size_sub_of_le (by omega) (lt_of_le_of_lt hn SIZE_MAX_lt), hsl]

/-- C11 (evaluation of the code): in the string `61 FF` the first byte decodes to
a character of width 1 and decoding fails at index 1. With the bound `n = 5` the
claimed value is `1 + min(5 - 1, 2 - 1) = 2`, which is what `strnwidth` of
`src/rlncurses.c` returns, but `strnwidth` of `src/ncurses.c` returns 3: its call
`strnlen(s, n - i)` counts the bytes from the start of the string, not from index
`i`. Likewise `strwidth` returns 3 in `src/ncurses.c` and 2 in `src/rlncurses.c`. -/
theorem ncurses_strnwidth_counts_from_start :
    Ncurses.strnwidth utf8 [0x61, 0xFF] 1 0 = .ok 1 ∧
      mbrtowc utf8 [0x61, 0xFF] 1 utf8.MB_CUR_MAX 0 utf8.init = .invalid ∧
      1 + min (5 - 1) ([0x61, 0xFF].length - 1) = 2 ∧
      strnwidth utf8 [0x61, 0xFF] 5 0 = .ok 2 ∧
      Ncurses.strnwidth utf8 [0x61, 0xFF] 5 0 = .ok 3 ∧
      strwidth utf8 [0x61, 0xFF] 0 = .ok 2 ∧
      Ncurses.strwidth utf8 [0x61, 0xFF] 0 = .ok 3 :=
  ⟨rfl, rfl, rfl, rfl, rfl, rfl, rfl⟩

end RlNcurses
